import Mathlib

/-!
# Verification of the mixmasta normalization engine

Shallow embedding of `src/mixmasta/normalizer.py` (and the constants it uses
from `src/mixmasta/constants.py`).  Pandas dataframes are modelled as a header
(list of column labels) together with positional rows (lists of cells); a cell
is `Option Value` with `none` standing for NaN/None.  External collaborators
(`datetime.strptime`, fuzzywuzzy's scorer, geopandas' spatial join, the bundled
ISO lookup table and the GADM reference tables) are passed in as explicit
oracle parameters, mirroring the spec's "black-box collaborator" contract.
-/

namespace Mixmasta

/-- A scalar cell value.  Python/pandas floats are out of scope for the claims
checked here; integer, string and boolean data (the types exercised by the
normalizer's logic) are modelled. -/
inductive Value where
  | int (i : Int)
  | str (s : String)
  | bool (b : Bool)
deriving DecidableEq, Repr

/-- A dataframe cell: `none` models NaN/None. -/
abbrev Cell := Option Value

/-- Python's `str(x)` as applied to a cell by `df[col].apply(lambda x: ... str(x) ...)`
and by `.astype(str)`: NaN prints as `"nan"`, booleans as `"True"`/`"False"`. -/
def cellToPyStr : Cell → String
  | none => "nan"
  | some (.int i) => toString i
  | some (.str s) => s
  | some (.bool b) => if b then "True" else "False"

/-- Python truthiness of a cell value, as used by `all(admin1_list)`:
NaN is truthy, `""` and `0` and `False` are falsy. -/
def cellTruthy : Cell → Bool
  | none => true
  | some (.int i) => i ≠ 0
  | some (.str s) => s ≠ ""
  | some (.bool b) => b

/-! ## String helpers (Python `str.endswith` / `str.replace`) -/

/-- Python `t.endswith(p)`. -/
def strEndsWith (t p : String) : Bool := p.data.isSuffixOf t.data

/-- Remove every (left-to-right, non-overlapping) occurrence of `pat` from a
character list: the semantics of Python `t.replace(pat, "")`. -/
def listRemoveAll (pat : List Char) : List Char → List Char
  | [] => []
  | c :: cs =>
    if _h : pat ≠ [] ∧ pat.isPrefixOf (c :: cs) then
      listRemoveAll pat ((c :: cs).drop pat.length)
    else
      c :: listRemoveAll pat cs
termination_by l => l.length
decreasing_by
  · simp only [List.length_drop, List.length_cons]
    have hne : pat ≠ [] := _h.1
    have : 1 ≤ pat.length := by
      cases pat with
      | nil => exact absurd rfl hne
      | cons a l => simp
    omega
  · simp

/-- Python `t.replace(pat, "")`. -/
def strRemoveAll (t pat : String) : String := ⟨listRemoveAll pat.data t.data⟩

/-- Does `pat` occur (as a contiguous sublist) in `l`?  Used only to phrase the
"the suffix occurs only at the end" hypothesis of claim C2. -/
def listOccurs (pat l : List Char) : Bool := decide (pat <:+: l)

/-- Python `p in s` (substring containment). -/
def strContains (s p : String) : Bool := decide (p.data <:+: s.data)

/-- `drop_duplicates` / `Series.unique`: keep the first occurrence of each
element, preserving order. -/
def dedupFirst {α : Type} [DecidableEq α] (l : List α) : List α :=
  l.foldl (fun acc a => if a ∈ acc then acc else acc ++ [a]) []

/-- Python `dict[k] = v`: overwrite in place if the key exists, else append. -/
def dictInsert {β : Type} (l : List (String × β)) (k : String) (v : β) :
    List (String × β) :=
  if l.any (fun p => p.1 = k) then
    l.map (fun p => if p.1 = k then (k, v) else p)
  else
    l ++ [(k, v)]

/-- Python `dict.get(k)` / `k in dict` lookup on an association list. -/
def dictGet {β : Type} (l : List (String × β)) (k : String) : Option β :=
  (l.find? (fun p => p.1 = k)).map (·.2)

instance {ε α : Type} [DecidableEq ε] [DecidableEq α] :
    DecidableEq (Except ε α) := fun a b =>
  match a, b with
  | .ok x, .ok y =>
    if h : x = y then isTrue (by rw [h])
    else isFalse (by intro hh; cases hh; exact h rfl)
  | .error e, .error f =>
    if h : e = f then isTrue (by rw [h])
    else isFalse (by intro hh; cases hh; exact h rfl)
  | .ok _, .error _ => isFalse (by intro hh; cases hh)
  | .error _, .ok _ => isFalse (by intro hh; cases hh)

/-! ## Tables -/

/-- A pandas dataframe: ordered column labels plus positional rows.
Each row is positionally aligned with `header`. -/
structure Table where
  header : List String
  rows : List (List Cell)
deriving DecidableEq, Repr

/-- Index of the first occurrence of `c` in a label list. -/
def listIdx? (c : String) : List String → Option Nat
  | [] => none
  | h :: t => if h = c then some 0 else (listIdx? c t).map (· + 1)

/-- The positions of every occurrence of label `c`, in frame order (pandas
label selection returns every column matching a non-unique label). -/
def labelIdxs (c : String) : List String → List Nat
  | [] => []
  | h :: t =>
    if h = c then 0 :: (labelIdxs c t).map (· + 1)
    else (labelIdxs c t).map (· + 1)

namespace Table

/-- Index of the first column labelled `c` (pandas label lookup with unique
labels; with duplicate labels the first match is used). -/
def colIdx (t : Table) (c : String) : Option Nat :=
  listIdx? c t.header

/-- The cell of row `r` in column `c` of table `t` (`none` if absent). -/
def cellAt (t : Table) (r : List Cell) (c : String) : Cell :=
  match t.colIdx c with
  | some i => r.getD i none
  | none => none

/-- `c in df.columns`. -/
def hasCol (t : Table) (c : String) : Bool := t.header.contains c

/-- `df.rename(columns={old: new})`: relabel every column labelled `old`;
a no-op when no column carries that label.  Data is untouched. -/
def rename (t : Table) (old new : String) : Table :=
  { t with header := t.header.map (fun h => if h = old then new else h) }

/-- `df[keys]`: project onto the listed labels, raising `KeyError` when a
label is missing.  For each key, *every* column carrying that label is
selected, in frame order — pandas returns all copies of a non-unique label. -/
def selectE (t : Table) (keys : List String) : Except String Table :=
  if keys.all (fun k => t.hasCol k) then
    .ok { header := keys.flatMap (fun k => t.header.filter (fun h => h = k)),
          rows := t.rows.map (fun r =>
            keys.flatMap (fun k =>
              (labelIdxs k t.header).map (fun i => r.getD i none))) }
  else
    .error "KeyError"

/-- `df[c] = f(row)` / `df.loc[:, c] = ...`: overwrite column `c` if present,
else append it on the right. -/
def assign (t : Table) (c : String) (f : List Cell → Cell) : Table :=
  match t.colIdx c with
  | some i => { t with rows := t.rows.map (fun r => r.set i (f r)) }
  | none =>
      { header := t.header ++ [c], rows := t.rows.map (fun r => r ++ [f r]) }

/-- `df[c] = df[c].apply(g)`. -/
def mapCol (t : Table) (c : String) (g : Cell → Cell) : Table :=
  t.assign c (fun r => g (t.cellAt r c))

/-- `df.loc[pred(row), c] = v`: overwrite column `c` on the rows satisfying
`pred` (no-op when the column is absent). -/
def setWhere (t : Table) (pred : List Cell → Bool) (c : String) (v : Cell) :
    Table :=
  match t.colIdx c with
  | some i => { t with rows := t.rows.map (fun r => if pred r then r.set i v else r) }
  | none => t

/-- `del df[c]`: drop the (first) column labelled `c`. -/
def delete (t : Table) (c : String) : Table :=
  match t.colIdx c with
  | some i => { header := t.header.eraseIdx i, rows := t.rows.map (·.eraseIdx i) }
  | none => t

/-- Re-express a row of `t` positionally against a new header. -/
def reindexRow (t : Table) (hdr : List String) (r : List Cell) : List Cell :=
  hdr.map (t.cellAt r)

/-- `df.append(other)`: label-aligned concatenation.  When the headers agree the
rows are concatenated unchanged; otherwise both sides are re-expressed against
the union header (new labels receive NaN). -/
def append (t u : Table) : Table :=
  if u.header = t.header then
    { header := t.header, rows := t.rows ++ u.rows }
  else
    let hdr := t.header ++ u.header.filter (fun h => ¬ t.header.contains h)
    { header := hdr
      rows := t.rows.map (t.reindexRow hdr) ++ u.rows.map (u.reindexRow hdr) }

/-- `left.merge(right, how="left", on=keys)`: each left row is paired with every
right row agreeing on the key columns (key columns are not repeated); a left
row with no match receives NaN in the right-only columns.  Overlapping non-key
labels are out of scope for the claims checked here and keep the left value. -/
def merge (left : Table) (keys : List String) (right : Table) : Table :=
  let rightCols := right.header.filter (fun h => ¬ keys.contains h)
  { header := left.header ++ rightCols
    rows := left.rows.flatMap (fun r =>
      let hits := right.rows.filter (fun s =>
        keys.all (fun k => right.cellAt s k = left.cellAt r k))
      if hits.isEmpty then
        [r ++ rightCols.map (fun _ => (none : Cell))]
      else
        hits.map (fun s => r ++ rightCols.map (right.cellAt s))) }

end Table

/-! ## Constants (`src/mixmasta/constants.py`) -/

def COL_ORDER : List String :=
  ["timestamp", "country", "admin1", "admin2", "admin3", "lat", "lng",
   "feature", "value"]

def GEO_TYPE_COUNTRY : String := "country"
def GEO_TYPE_ADMIN1 : String := "state/territory"
def GEO_TYPE_ADMIN2 : String := "county/district"
def GEO_TYPE_ADMIN3 : String := "municipality/town"

def MONTH_DAY_YEAR : List String := ["day", "month", "year"]

/-! ## Annotations -/

/-- One annotation object from the mapper schema.  Optional fields model
key-presence checks (`"primary_geo" in d`, etc.); `none`/`[]` are falsy. -/
structure Ann where
  name : String
  geo_type : String := ""
  date_type : String := ""
  primary_geo : Option Bool := none
  primary_date : Option Bool := none
  time_format : String := ""
  qualifies : List String := []
  associated_columns : List (String × String) := []
  aliases : List (String × String) := []
  resolve_to_gadm : Option Bool := none
  coord_format : String := ""
deriving DecidableEq, Repr

/-- The mapper schema: three ordered annotation lists. -/
structure Mapper where
  geo : List Ann
  date : List Ann
  feature : List Ann
deriving DecidableEq, Repr

/-- All `name` fields in the schema, in `date`, `feature`, `geo` iteration
order is irrelevant to the claims; the code iterates `mapper.items()`. -/
def mapperNames (m : Mapper) : List String :=
  (m.geo ++ m.date ++ m.feature).map (·.name)

/-! ## `format_time` (normalizer.py lines 691–730) -/

theorem listRemoveAll_length_le (pat : List Char) :
    ∀ l : List Char, (listRemoveAll pat l).length ≤ l.length := by
  have H : ∀ n (l : List Char), l.length ≤ n →
      (listRemoveAll pat l).length ≤ l.length := by
    intro n
    induction n with
    | zero =>
      intro l hl
      have : l = [] := List.length_eq_zero.mp (Nat.le_zero.mp hl)
      subst this
      simp [listRemoveAll]
    | succ n ih =>
      intro l hl
      match l with
      | [] => simp [listRemoveAll]
      | c :: cs =>
        rw [listRemoveAll]
        split
        · next h =>
          have h1 : 1 ≤ pat.length := List.length_pos.mpr h.1
          have hlen : ((c :: cs).drop pat.length).length ≤ n := by
            simp only [List.length_drop, List.length_cons]
            simp only [List.length_cons] at hl
            omega
          have := ih _ hlen
          simp only [List.length_drop, List.length_cons] at this ⊢
          omega
        · next h =>
          have := ih cs (by simp only [List.length_cons] at hl; omega)
          simp only [List.length_cons]
          omega
  intro l
  exact H l.length l le_rfl

theorem listRemoveAll_length_lt (pat : List Char) (hpat : pat ≠ []) :
    ∀ l : List Char, pat.isSuffixOf l → (listRemoveAll pat l).length < l.length := by
  have h1 : 1 ≤ pat.length := List.length_pos.mpr hpat
  have H : ∀ n (l : List Char), l.length ≤ n → pat.isSuffixOf l →
      (listRemoveAll pat l).length < l.length := by
    intro n
    induction n with
    | zero =>
      intro l hl hs
      have : l = [] := List.length_eq_zero.mp (Nat.le_zero.mp hl)
      subst this
      exact absurd (List.suffix_nil.mp (List.isSuffixOf_iff_suffix.mp hs)) hpat
    | succ n ih =>
      intro l hl hs
      match l with
      | [] =>
        exact absurd (List.suffix_nil.mp (List.isSuffixOf_iff_suffix.mp hs)) hpat
      | c :: cs =>
        rw [listRemoveAll]
        split
        · next h =>
          have hle := listRemoveAll_length_le pat ((c :: cs).drop pat.length)
          simp only [List.length_drop, List.length_cons] at hle ⊢
          omega
        · next h =>
          have hpre : ¬ pat.isPrefixOf (c :: cs) := fun hp => h ⟨hpat, hp⟩
          have hsuf : pat <:+ c :: cs := List.isSuffixOf_iff_suffix.mp hs
          rcases List.suffix_cons_iff.mp hsuf with heq | htail
          · exact absurd (List.isPrefixOf_iff_prefix.mpr (heq ▸ List.prefix_refl _))
              hpre
          · have hcs := ih cs (by simp only [List.length_cons] at hl; omega)
              (List.isSuffixOf_iff_suffix.mpr htail)
            simp only [List.length_cons]
            omega
  intro l
  exact H l.length l le_rfl

/-- `format_time(t, time_format, validate)`, parameterized by the external
`int(datetime.strptime(t, fmt).timestamp())` collaborator `parse` (whole epoch
seconds on success, `none` on a parse error).  Success yields epoch
milliseconds; on failure a string ending in `" 00:00:00"` is retried after
`t.replace(" 00:00:00", "")`; an ultimate failure raises iff `validate`. -/
def format_time (parse : String → String → Option Int) (t time_format : String)
    (validate : Bool) : Except String (Option Int) :=
  match parse t time_format with
  | some secs => .ok (some (secs * 1000))
  | none =>
    if _h : strEndsWith t " 00:00:00" then
      format_time parse (strRemoveAll t " 00:00:00") time_format validate
    else if validate then .error "time parse error" else .ok none
termination_by t.data.length
decreasing_by
  exact listRemoveAll_length_lt _ (by decide) _ _h

/-- `format_time` with `validate=False`, collapsing the (unreachable) error
case to null; this is how every call site inside `normalizer` uses it. -/
def formatTimeF (parse : String → String → Option Int) (t time_format : String) :
    Option Int :=
  match format_time parse t time_format false with
  | .ok v => v
  | .error _ => none

/-- The per-cell date conversion
`df[col].apply(lambda x: format_time(str(x), fmt, validate=False))`. -/
def formatTimeCell (parse : String → String → Option Int) (fmt : String)
    (c : Cell) : Cell :=
  (formatTimeF parse (cellToPyStr c) fmt).map .int

/-! ## A concrete model of the `datetime.strptime` collaborator

Modelled from the spec: `datetime.strptime` followed by `.timestamp()` is an
external stdlib collaborator, not repository code.  The model below covers
`"%m/%d/%Y"`-shaped patterns (the shape exercised by the claims): one- or
two-digit month and day, validated against the Gregorian calendar, and a
year of up to four digits; `.timestamp()` on the resulting naive datetime
subtracts the local timezone offset `tzOff` (seconds east of UTC). -/

def isLeap (y : Nat) : Bool := decide ((y % 4 = 0 ∧ y % 100 ≠ 0) ∨ y % 400 = 0)

def daysInMonth (y m : Nat) : Nat :=
  if m = 2 then (if isLeap y then 29 else 28)
  else if m = 4 ∨ m = 6 ∨ m = 9 ∨ m = 11 then 30
  else 31

/-- Days from 1970-01-01 to the given civil date (proleptic Gregorian),
following the standard era-based algorithm with truncating division. -/
def daysFromCivil (y m d : Int) : Int :=
  let y' := if m ≤ 2 then y - 1 else y
  let era := (if 0 ≤ y' then y' else y' - 399) / 400
  let yoe := y' - era * 400
  let doy := (153 * (if 2 < m then m - 3 else m + 9) + 2) / 5 + d - 1
  let doe := yoe * 365 + yoe / 4 - yoe / 100 + doy
  era * 146097 + doe - 719468

/-- Split a character list on a separator (the shape of a `"m/d/Y"` date). -/
def splitChar (sep : Char) : List Char → List (List Char)
  | [] => [[]]
  | c :: cs =>
    let r := splitChar sep cs
    if c = sep then [] :: r
    else
      match r with
      | [] => [[c]]
      | h :: t => (c :: h) :: t

/-- Parse a non-empty all-digit character list as a number. -/
def digitsToNat? (l : List Char) : Option Nat :=
  if l ≠ [] ∧ l.all (·.isDigit) then
    some (l.foldl (fun n c => n * 10 + (c.toNat - '0'.toNat)) 0)
  else none

/-- The strptime-and-timestamp model (see section comment above). -/
def strptimeModel (tzOff : Int) (t fmt : String) : Option Int :=
  if fmt = "%m/%d/%Y" then
    match splitChar '/' t.data with
    | [ms, ds, ys] =>
      match digitsToNat? ms, digitsToNat? ds, digitsToNat? ys with
      | some m, some d, some y =>
        if 1 ≤ ms.length ∧ ms.length ≤ 2 ∧ 1 ≤ ds.length ∧ ds.length ≤ 2 ∧
            1 ≤ ys.length ∧ ys.length ≤ 4 ∧
            1 ≤ m ∧ m ≤ 12 ∧ 1 ≤ d ∧ d ≤ daysInMonth y m then
          some (daysFromCivil (Int.ofNat y) (Int.ofNat m) (Int.ofNat d) * 86400
            - tzOff)
        else none
      | _, _, _ => none
    | _ => none
  else none

/-! ## Date assembly helpers (normalizer.py lines 733–886) -/

/-- `generate_timestamp_column(df, date_mapper, column_name)`: find the (last)
day/month/year source columns declared in `date_mapper`, stringify them
(`astype(str)`), default missing day/month to `"1"` and year to `"01"`, and
assign `month + "/" + day + "/" + year` to `column_name`.  The temporary
default columns the code adds and deletes cancel out and are not materialized
here. -/
def generate_timestamp_column (df : Table) (date_mapper : List (String × Ann))
    (column_name : String) : Table :=
  let dayCol := date_mapper.foldl
    (fun acc kv => if kv.2.date_type = "day" then some kv.1 else acc) none
  let monthCol := date_mapper.foldl
    (fun acc kv => if kv.2.date_type = "month" then some kv.1 else acc) none
  let yearCol := date_mapper.foldl
    (fun acc kv => if kv.2.date_type = "year" then some kv.1 else acc) none
  let dayS : List Cell → String := fun r =>
    match dayCol with
    | some k => cellToPyStr (df.cellAt r k)
    | none => "1"
  let monthS : List Cell → String := fun r =>
    match monthCol with
    | some k => cellToPyStr (df.cellAt r k)
    | none => "1"
  let yearS : List Cell → String := fun r =>
    match yearCol with
    | some k => cellToPyStr (df.cellAt r k)
    | none => "01"
  df.assign column_name
    (fun r => some (.str (monthS r ++ "/" ++ dayS r ++ "/" ++ yearS r)))

/-- Lexicographic comparison of character lists (Python string `<`). -/
def charListLt : List Char → List Char → Bool
  | [], [] => false
  | [], _ :: _ => true
  | _ :: _, [] => false
  | a :: as, b :: bs =>
    if a < b then true else if b < a then false else charListLt as bs

/-- Insert into an ascending list (structural model of Python `sorted`;
distinct strings compare lexicographically, equal strings are identical so
stability is immaterial). -/
def insertSorted (a : String) : List String → List String
  | [] => [a]
  | b :: bs =>
    if charListLt a.data b.data then a :: b :: bs else b :: insertSorted a bs

def pySorted : List String → List String
  | [] => []
  | a :: as => insertSorted a (pySorted as)

/-- `generate_column_name(field_list)`: `"".join(sorted(field_list))`. -/
def generate_column_name (field_list : List String) : String :=
  String.join (pySorted field_list)

/-- `generate_timestamp_format(date_mapper)`: compose
`"{month}/{day}/{year}"` from each sub-annotation's `time_format`, defaulting
to `%m`, `%d`, `%y`. -/
def generate_timestamp_format (date_mapper : List (String × Ann)) : String :=
  let day := date_mapper.foldl
    (fun acc kv => if kv.2.date_type = "day" then kv.2.time_format else acc) "%d"
  let month := date_mapper.foldl
    (fun acc kv => if kv.2.date_type = "month" then kv.2.time_format else acc) "%m"
  let year := date_mapper.foldl
    (fun acc kv => if kv.2.date_type = "year" then kv.2.time_format else acc) "%y"
  month ++ "/" ++ day ++ "/" ++ year

/-- `build_date_qualifies_field(qualified_col_dict, assoc_fields)`: the first
key whose value list equals `assoc_fields`, else null. -/
def build_date_qualifies_field (qualified_col_dict : List (String × List String))
    (assoc_fields : List String) : Option String :=
  (qualified_col_dict.find? (fun kv => kv.2 = assoc_fields)).map (·.1)

/-! ## `handle_colname_collisions` (normalizer.py lines 600–688) -/

/-- The collision list: names of non-primary geo/date annotations and of
qualifying feature annotations that collide with a protected column name. -/
def collisionList (mapper : Mapper) (protected_cols : List String) :
    List String :=
  let non_primary_geo_cols := (mapper.geo.filter (fun d =>
    protected_cols.contains d.name && decide (d.primary_geo ≠ some true))).map (·.name)
  let non_primary_time_cols := (mapper.date.filter (fun d =>
    protected_cols.contains d.name && decide (d.primary_date ≠ some true))).map (·.name)
  let feature_cols := (mapper.feature.filter (fun d =>
    protected_cols.contains d.name && decide (d.qualifies ≠ []))).map (·.name)
  non_primary_geo_cols ++ non_primary_time_cols ++ feature_cols

/-- The per-annotation mapper update: rename a colliding annotation, else
rewrite colliding references inside `qualifies`, else inside
`associated_columns` (faithful to the code's `elif` chain). -/
def suffixAnn (cl : List String) (a : Ann) : Ann :=
  if cl.contains a.name then { a with name := a.name ++ "_non_primary" }
  else if a.qualifies ≠ [] then
    { a with qualifies :=
        a.qualifies.map (fun w => if cl.contains w then w ++ "_non_primary" else w) }
  else if a.associated_columns ≠ [] then
    { a with associated_columns :=
        a.associated_columns.map (fun p =>
          (p.1, if cl.contains p.2 then p.2 ++ "_non_primary" else p.2)) }
  else a

/-- `handle_colname_collisions(df, mapper, protected_cols)`. -/
def handle_colname_collisions (df : Table) (mapper : Mapper)
    (protected_cols : List String) :
    Table × Mapper × List (String × List String) :=
  let cl := collisionList mapper protected_cols
  if cl = [] then (df, mapper, [])
  else
    let out := cl.foldl
      (fun (acc : Table × List (String × List String)) col =>
        (acc.1.rename col (col ++ "_non_primary"),
         dictInsert acc.2 (col ++ "_non_primary") [col]))
      (df, [])
    ({ header := out.1.header, rows := out.1.rows },
     { geo := mapper.geo.map (suffixAnn cl),
       date := mapper.date.map (suffixAnn cl),
       feature := mapper.feature.map (suffixAnn cl) },
     out.2)

/-! ## `audit_renamed_col_dict` (normalizer.py lines 1224–1254) -/

/-- The `remove_these` set of `audit_renamed_col_dict`: for each entry
`(k, v)`, when `"".join(v)` is some key and `[k]` is some value, both `k` and
`"".join(v)` are marked for removal. -/
def auditRemoveSet (dct : List (String × List String)) : List String :=
  dct.foldl (fun acc kv =>
    let vstr := String.join kv.2
    if dct.any (fun p => p.1 = vstr) && dct.any (fun p => p.2 = [kv.1]) then
      vstr :: kv.1 :: acc
    else acc) ([] : List String)

/-- Remove pairs of ledger entries that would rename a column back to
itself: the keys marked by the scan are popped after it. -/
def audit_renamed_col_dict (dct : List (String × List String)) :
    List (String × List String) :=
  dct.filter (fun p => !(auditRemoveSet dct).contains p.1)

/-! ## `geocode` (normalizer.py lines 940–1078)

The GADM point-in-polygon join (`gpd.sjoin(..., op="within")`) is an external
collaborator; it is modelled as an oracle mapping an (x, y) coordinate pair to
the matched polygon's administrative columns (`none` when no polygon contains
the point — the left join then leaves NaN). -/

structure GeoOracle where
  adminCols : List String
  sjoin : Cell → Cell → Option (List Cell)

/-- Is the (x, y) pair present in the geocode cache? -/
def cachedPair (df_geocode : Table) (x y : String) (p : Cell × Cell) : Bool :=
  df_geocode.rows.any (fun s =>
    df_geocode.cellAt s x == p.1 && df_geocode.cellAt s y == p.2)

/-- Steps 1–2 of `geocode`: the deduplicated (x, y) pairs of `df` that are
absent from the cache (the `left_only` rows of the indicator merge); these and
only these are submitted to the spatial join. -/
def geocode_submitted (df : Table) (x y : String) (df_geocode : Table) :
    List (Cell × Cell) :=
  let pairs := dedupFirst (df.rows.map (fun r => (df.cellAt r x, df.cellAt r y)))
  if df_geocode.rows.isEmpty then pairs
  else pairs.filter (fun p => !cachedPair df_geocode x y p)

/-- The cache row built for a newly geocoded pair (steps 3–4). -/
def geocodeNewRow (go : GeoOracle) (p : Cell × Cell) : List Cell :=
  [p.1, p.2] ++ (match go.sjoin p.1 p.2 with
    | some cs => cs
    | none => go.adminCols.map (fun _ => (none : Cell)))

/-- `geocode(admin, df, x, y, gadm, df_geocode)`: geocode the coordinate pairs
of `df` not already in the cache, grow the cache with the results (step 5),
and left-join the cache back onto `df` (step 6).  Returns the joined frame and
the updated cache. -/
def geocode (go : GeoOracle) (admin : String) (df : Table) (x y : String)
    (df_geocode : Table) : Table × Table :=
  let _ := admin
  let newPairs := geocode_submitted df x y df_geocode
  let cache' :=
    if newPairs.isEmpty then df_geocode
    else
      let gdf : Table :=
        { header := [x, y] ++ go.adminCols
          rows := newPairs.map (geocodeNewRow go) }
      if df_geocode.rows.isEmpty then gdf else df_geocode.append gdf
  (Table.merge df [x, y] cache', cache')

/-! ## `match_geo_names` (normalizer.py lines 1081–1221)

`fuzzywuzzy`'s `partial_ratio` scorer is an external collaborator, passed in
as a scoring oracle. -/

/-- `fuzzyprocess.extractOne(query, choices, scorer)` with the default score
cutoff of 0: the first best-scoring choice (strict improvement keeps the
earlier choice on ties), or null when `choices` is empty. -/
def extractOne (score : Cell → Cell → Nat) (q : Cell) (choices : List Cell) :
    Option Cell :=
  match choices with
  | [] => none
  | c :: cs =>
    some (cs.foldl (fun best ch => if score q best < score q ch then ch else best) c)

/-- One unknown value's in-place correction at an admin level:
`df.loc[df[level] == unk, level] = match[0]` — note the update applies to
every row of the whole table whose `level` cell equals `unk`, not only to the
rows of the country currently being processed. -/
def fixUnknown (score : Cell → Cell → Nat) (level : String) (choices : List Cell)
    (df : Table) (unk : Cell) : Table :=
  match extractOne score unk choices with
  | some best => df.setWhere (fun r => df.cellAt r level == unk) level best
  | none => df

/-- Python `str.strip()`: drop leading and trailing whitespace. -/
def pyStrip (s : String) : String :=
  ⟨((s.data.dropWhile (·.isWhitespace)).reverse.dropWhile
    (·.isWhitespace)).reverse⟩

/-- `pandas.notnull(x) and x.strip()`: the filter applied to the unknown
values at the admin1–3 levels. -/
def notnullStrip : Cell → Bool
  | none => false
  | some (.str s) => decide (pyStrip s ≠ "")
  | some _ => true

/-- The country-correction pass (lines 1148–1160): fuzzy-correct each country
value not present in the GADM country list.  A null query raises inside
`extractOne` and is caught (`match = None`), leaving the value unchanged. -/
def match_country_names (score : Cell → Cell → Nat) (df : Table) (gadm : Table) :
    Table :=
  let gadm_country_list := dedupFirst (gadm.rows.map (fun r => gadm.cellAt r "country"))
  let unknowns := (df.rows.filter (fun r =>
    !gadm_country_list.contains (df.cellAt r "country"))).map
    (fun r => df.cellAt r "country")
  unknowns.foldl (fun df unk =>
    let m := if unk = none then none else extractOne score unk gadm_country_list
    match m with
    | some best => df.setWhere (fun r => df.cellAt r "country" == unk) "country" best
    | none => df) df

/-- One admin-level pass for one country `c` (lines 1171–1219): candidates are
the GADM values of `level` for country `c`; the unknown values are gathered
from the rows of country `c` whose `level` value is not a candidate, filtered
for non-null non-blank entries, and each is corrected by `fixUnknown`. -/
def adminLevelPass (score : Cell → Cell → Nat) (gadm : Table) (level : String)
    (df : Table) (c : Cell) : Table :=
  let lvl_list := dedupFirst ((gadm.rows.filter (fun r =>
    gadm.cellAt r "country" == c)).map (fun r => gadm.cellAt r level))
  if lvl_list.all cellTruthy && df.hasCol level then
    let unknowns := ((df.rows.filter (fun r =>
      df.cellAt r "country" == c && !lvl_list.contains (df.cellAt r level))).map
      (fun r => df.cellAt r level)).filter notnullStrip
    unknowns.foldl (fixUnknown score level lvl_list) df
  else df

/-- `match_geo_names(admin, df, resolve_to_gadm_geotypes, gadm)`. -/
def match_geo_names (score : Cell → Cell → Nat) (admin : String) (df : Table)
    (resolve_to_gadm_geotypes : List String) (gadm : Table) : Table :=
  let countries := dedupFirst (df.rows.map (fun r => df.cellAt r "country"))
  let df :=
    if resolve_to_gadm_geotypes.contains GEO_TYPE_COUNTRY then
      match_country_names score df gadm
    else df
  let gadm : Table :=
    { gadm with rows := gadm.rows.filter (fun r =>
        countries.contains (gadm.cellAt r "country")) }
  countries.foldl (fun df c =>
    let df :=
      if resolve_to_gadm_geotypes.contains GEO_TYPE_ADMIN1 then
        adminLevelPass score gadm "admin1" df c
      else df
    let df :=
      if resolve_to_gadm_geotypes.contains GEO_TYPE_ADMIN2 then
        adminLevelPass score gadm "admin2" df c
      else df
    let df :=
      if admin = "admin3" && resolve_to_gadm_geotypes.contains GEO_TYPE_ADMIN3 then
        adminLevelPass score gadm "admin3" df c
      else df
    df) df

/-! ## The normalizer pipeline (normalizer.py lines 28–597) -/

/-- The mutable state threaded through the date/geo/feature loops. -/
structure NormSt where
  df : Table
  features : List String
  primary_dgm : List (String × Ann)
  other_dgm : List (String × Ann)
  qcd : List (String × List String)
  renamed : List (String × List String)
deriving DecidableEq, Repr

/-- Register `name` as a qualifier of each column in `quals`
(`qualified_col_dict` update, repeated verbatim at lines 219–223, 389–393 and
433–438). -/
def addQualifiers (qcd : List (String × List String)) (quals : List String)
    (name : String) : List (String × List String) :=
  quals.foldl (fun qcd q =>
    match dictGet qcd q with
    | some v => dictInsert qcd q (v ++ [name])
    | none => dictInsert qcd q [name]) qcd

/-- One iteration of the date annotation loop (lines 153–223). -/
def dateLoopStep (parse : String → String → Option Int)
    (primary_time_cols : List String) (st : NormSt) (a : Ann) : NormSt :=
  let name := a.name
  let st :=
    if primary_time_cols.contains name then
      if a.date_type = "date" then
        { st with df := (st.df.mapCol name
            (formatTimeCell parse a.time_format)).rename name "timestamp" }
      else if a.date_type = "epoch" then
        { st with df := st.df.rename name "timestamp" }
      else if MONTH_DAY_YEAR.contains a.date_type then
        { st with primary_dgm := dictInsert st.primary_dgm name a }
      else st
    else
      if a.date_type = "date" then
        let df := st.df.mapCol name (formatTimeCell parse a.time_format)
        if primary_time_cols.isEmpty && !df.hasCol "timestamp" then
          { st with df := df.rename name "timestamp",
                    renamed := dictInsert st.renamed "timestamp" [name],
                    features := st.features ++ [name] }
        else
          { st with df := df, features := st.features ++ [name] }
      else if MONTH_DAY_YEAR.contains a.date_type &&
          !a.associated_columns.isEmpty then
        { st with other_dgm := dictInsert st.other_dgm name a }
      else
        { st with features := st.features ++ [name] }
  if a.qualifies ≠ [] then
    { st with qcd := addQualifiers st.qcd a.qualifies name }
  else st

/-- Combine primary day/month/year fields into an epoch `timestamp` column
(lines 225–247). -/
def applyPrimaryDateGroup (parse : String → String → Option Int) (st : NormSt) :
    NormSt :=
  if st.primary_dgm.isEmpty then st
  else
    let df := generate_timestamp_column st.df st.primary_dgm "timestamp"
    let fmt := generate_timestamp_format st.primary_dgm
    { st with df := df.mapCol "timestamp" (formatTimeCell parse fmt) }

/-- The body of the `while other_date_group_mapper` loop (lines 249–323) for
the popped `(name, annotation)` entry; `st.other_dgm` holds the remaining
mapper from which the associated fields are popped.  The
`date_df = df[assoc_fields]` selection (line 296) is computed and discarded —
its one observable effect is the `KeyError` pandas raises when an associated
column is absent from the frame, so the step is fallible. -/
def other_date_group_step (parse : String → String → Option Int) (st : NormSt)
    (nameAnn : String × Ann) : Except String NormSt :=
  let name := nameAnn.1
  let ann := nameAnn.2
  let assoc0 := ann.associated_columns.map (·.2)
  let assoc_columns_dict :=
    (assoc0.filterMap (fun f => (dictGet st.other_dgm f).map (fun a => (f, a))))
      ++ [(name, ann)]
  let assoc_fields := assoc0 ++ [name]
  let other' := st.other_dgm.filter (fun p => !assoc0.contains p.1)
  let new_column_name :=
    if !st.df.hasCol "timestamp" then "timestamp"
    else generate_column_name assoc_fields
  match st.df.selectE assoc_fields with
  | .error e => .error e
  | .ok _ =>
    let df := generate_timestamp_column st.df assoc_columns_dict new_column_name
    let date_types := assoc_columns_dict.map (·.2.date_type)
    let df :=
      if ((dedupFirst date_types).filter
          (fun t => MONTH_DAY_YEAR.contains t)).length = 3 then
        df.mapCol new_column_name
          (formatTimeCell parse (generate_timestamp_format assoc_columns_dict))
      else df
    let renamed := dictInsert st.renamed new_column_name assoc_fields
    if new_column_name ≠ "timestamp" then
      match build_date_qualifies_field st.qcd assoc_fields with
      | none =>
        .ok { st with df := df, other_dgm := other', renamed := renamed,
                      features := st.features ++ [new_column_name] }
      | some q =>
        .ok { st with df := df, other_dgm := other', renamed := renamed,
                      qcd := dictInsert st.qcd q [new_column_name] }
    else
      .ok { st with df := df, other_dgm := other', renamed := renamed }

theorem other_date_group_step_dgm_le (parse : String → String → Option Int)
    (st : NormSt) (nameAnn : String × Ann) :
    ∀ st', other_date_group_step parse st nameAnn = .ok st' →
      st'.other_dgm.length ≤ st.other_dgm.length := by
  intro st' h
  unfold other_date_group_step at h
  dsimp only at h
  split at h
  · exact Except.noConfusion h
  · repeat' split at h
    all_goals
      injection h with h
      rw [← h]
      exact List.length_filter_le _ _

/-- The `while other_date_group_mapper` loop: `popitem()` removes the last
entry of the (insertion-ordered) mapper and processes its group.  The loop is
driven by a structural fuel equal to the mapper's length; each iteration only
removes entries, so the fuel never runs out before the mapper is empty. -/
def drainFuel (parse : String → String → Option Int) :
    Nat → NormSt → Except String NormSt
  | 0, st => .ok st
  | n + 1, st =>
    match st.other_dgm with
    | [] => .ok st
    | p :: ps =>
      match other_date_group_step parse
          { st with other_dgm := (p :: ps).dropLast }
          ((p :: ps).getLast (by simp)) with
      | .error e => .error e
      | .ok st' => drainFuel parse n st'

def drain_other_date_groups (parse : String → String → Option Int) (st : NormSt) :
    Except String NormSt :=
  drainFuel parse st.other_dgm.length st

/-- One iteration of the geo annotation loop (lines 325–415).  The
`coordinates` branch faithfully raises: `df[kk].values` is a numpy ndarray and
the code immediately calls `.split(",")` on it, an attribute ndarrays do not
have. -/
def geoLoopStep (isoLookup : String → Option String)
    (primary_geo_cols : List String) (st : NormSt) (a : Ann) :
    Except String NormSt :=
  let kk := a.name
  if primary_geo_cols.contains kk then
    if a.geo_type = "latitude" then .ok { st with df := st.df.rename kk "lat" }
    else if a.geo_type = "longitude" then .ok { st with df := st.df.rename kk "lng" }
    else if a.geo_type = "coordinates" then
      .error "AttributeError: 'numpy.ndarray' object has no attribute 'split'"
    else if a.geo_type = GEO_TYPE_COUNTRY ∧ kk ≠ "country" then
      .ok { st with df := st.df.rename kk "country" }
    else if a.geo_type = GEO_TYPE_ADMIN1 ∧ kk ≠ "admin1" then
      .ok { st with df := st.df.rename kk "admin1" }
    else if a.geo_type = GEO_TYPE_ADMIN2 ∧ kk ≠ "admin2" then
      .ok { st with df := st.df.rename kk "admin2" }
    else if a.geo_type = GEO_TYPE_ADMIN3 ∧ kk ≠ "admin2" then
      .ok { st with df := st.df.rename kk "admin3" }
    else if a.geo_type.toLower = "iso2" ∨ a.geo_type.toLower = "iso3" then
      let df := st.df.mapCol kk (fun c =>
        match c with
        | some (.str s) =>
          match isoLookup s with
          | some cn => some (.str cn)
          | none => c
        | _ => c)
      .ok { st with df := df.rename kk "country" }
    else .ok st
  else if a.qualifies ≠ [] then
    .ok { st with qcd := addQualifiers st.qcd a.qualifies kk }
  else if primary_geo_cols.isEmpty then
    if a.geo_type = GEO_TYPE_COUNTRY then
      .ok { st with df := st.df.assign "country" (fun r => st.df.cellAt r kk),
                    renamed := dictInsert st.renamed "country" [kk] }
    else if a.geo_type = GEO_TYPE_ADMIN1 then
      .ok { st with df := st.df.assign "admin1" (fun r => st.df.cellAt r kk),
                    renamed := dictInsert st.renamed "admin1" [kk] }
    else if a.geo_type = GEO_TYPE_ADMIN2 then
      .ok { st with df := st.df.assign "admin2" (fun r => st.df.cellAt r kk),
                    renamed := dictInsert st.renamed "admin2" [kk] }
    else if a.geo_type = GEO_TYPE_ADMIN3 then
      .ok { st with df := st.df.assign "admin3" (fun r => st.df.cellAt r kk),
                    renamed := dictInsert st.renamed "admin3" [kk] }
    else .ok { st with features := st.features ++ [kk] }
  else .ok { st with features := st.features ++ [kk] }

/-- Python `distutils.util.strtobool`. -/
def strtoboolM (s : String) : Option Bool :=
  let l := s.toLower
  if l = "y" ∨ l = "yes" ∨ l = "t" ∨ l = "true" ∨ l = "on" ∨ l = "1" then some true
  else if l = "n" ∨ l = "no" ∨ l = "f" ∨ l = "false" ∨ l = "off" ∨ l = "0" then
    some false
  else none

inductive ColDtype | cInt | cBool | cObj
deriving DecidableEq, Repr

/-- Modelled abstraction of `df[col].dtype.type`: an all-integer column has an
integer dtype, an all-boolean column a boolean dtype, anything else is
`object` (string fallback).  Float dtypes are outside the value model. -/
def columnDtype (df : Table) (c : String) : ColDtype :=
  let cells := df.rows.map (fun r => df.cellAt r c)
  if cells.all (fun x => match x with | some (.int _) => true | _ => false) then
    .cInt
  else if cells.all (fun x => match x with | some (.bool _) => true | _ => false) then
    .cBool
  else .cObj

/-- Cast each alias key from its string form into the column's sniffed type
(lines 446–482); a failed cast falls back on the string key. -/
def castAliases (dt : ColDtype) (aliases : List (String × String)) :
    List (Cell × String) :=
  aliases.map (fun kv =>
    match dt with
    | .cInt =>
      match kv.1.toInt? with
      | some i => (some (.int i), kv.2)
      | none => (some (.str kv.1), kv.2)
    | .cBool =>
      match strtoboolM kv.1 with
      | some b => (some (.bool b), kv.2)
      | none => (some (.str kv.1), kv.2)
    | .cObj => (some (.str kv.1), kv.2))

/-- Apply a feature's alias map (`df.replace`) and then coerce the whole
column to string (lines 440–490). -/
def applyAliases (df : Table) (a : Ann) : Table :=
  if a.aliases.isEmpty then df
  else
    let casts := castAliases (columnDtype df a.name) a.aliases
    let df := df.mapCol a.name (fun c =>
      match casts.find? (fun p => p.1 == c) with
      | some p => some (.str p.2)
      | none => c)
    df.mapCol a.name (fun c => some (.str (cellToPyStr c)))

/-- One iteration of the feature annotation loop (lines 420–490). -/
def featureLoopStep (st : NormSt) (a : Ann) : NormSt :=
  let st :=
    if a.qualifies = [] then { st with features := st.features ++ [a.name] }
    else { st with qcd := addQualifiers st.qcd a.qualifies a.name }
  { st with df := applyAliases st.df a }

/-- The value-source column for feature `feat`: the disambiguated
`"<feat>_mixmasta_left"` copy when the `try` selection succeeds, else `feat`
itself (lines 552–570). -/
def pivotValueCol (df : Table) (using_cols : List String) (feat : String) :
    String :=
  if (using_cols ++ [feat ++ "_mixmasta_left"]).all df.hasCol then
    feat ++ "_mixmasta_left"
  else feat

/-- Build one feature's long-format frame: select the protected + qualifier
columns and the value source, label the `feature` column (the
`mapper[feat]["new_col_name"]` lookup always raises — `mapper` is keyed by
`geo`/`date`/`feature` — so the bare except labels with `feat` itself), and
rename the value source to `value`.  The `astype({"value": object})` applied
for epoch-sourced features changes only the dtype, not the cell values. -/
def pivotFeatureFrame (df : Table) (using_cols : List String) (feat : String) :
    Except String Table :=
  let vcol := pivotValueCol df using_cols feat
  match df.selectE (using_cols ++ [vcol]) with
  | .error e => .error e
  | .ok df_ =>
    let df_ := df_.assign "feature" (fun _ => some (.str feat))
    .ok (df_.rename vcol "value")

/-- The columns carried alongside one feature: the protected columns plus the
feature's qualifiers (lines 541–545). -/
def pivotUsingCols (protected_cols : List String)
    (qcd : List (String × List String)) (feat : String) : List String :=
  protected_cols ++ (dictGet qcd feat).getD []

/-- One iteration of the pivot loop (lines 540–583). -/
def pivotStep (df : Table) (protected_cols : List String)
    (qcd : List (String × List String)) (acc : Table × List String)
    (feat : String) : Except String (Table × List String) :=
  let quals := (dictGet qcd feat).getD []
  let using_cols := pivotUsingCols protected_cols qcd feat
  let col_order := quals.foldl
    (fun co c => if co.contains c then co else co ++ [c]) acc.2
  match pivotFeatureFrame df using_cols feat with
  | .error e => .error e
  | .ok df_ =>
    .ok (if acc.1.rows.isEmpty then df_ else acc.1.append df_, col_order)

/-- The `for c in col_order: if c not in df_out: df_out[c] = None` fill loop
(lines 585–587). -/
def pivotFill (co : List String) (t : Table) : Table :=
  co.foldl
    (fun (t : Table) c => if t.hasCol c then t else t.assign c (fun _ => none)) t

/-- Lines 533–597: pivot the features into long format, fill the missing
ordered columns with null, drop rows with a null `value`, and restrict to the
final column order.  Returns the restricted frame and that column order. -/
def feature_pivot (df : Table) (features : List String)
    (protected_cols : List String) (qcd : List (String × List String))
    (col_order0 : List String) : Except String (Table × List String) :=
  let start : Table × List String := ({ header := [], rows := [] }, col_order0)
  let resE :=
    if features.isEmpty then
      (df.selectE protected_cols).map (fun t => (t, col_order0))
    else
      features.foldlM (pivotStep df protected_cols qcd) start
  match resE with
  | .error e => .error e
  | .ok res =>
    let df_out := pivotFill res.2 res.1
    let df_out : Table :=
      { df_out with rows := df_out.rows.filter (fun r =>
          (df_out.cellAt r "value").isSome) }
    match df_out.selectE res.2 with
    | .error e => .error e
    | .ok out => .ok (out, res.2)

/-- The external collaborators of `normalizer`, bundled. -/
structure Oracles where
  parse : String → String → Option Int
  score : Cell → Cell → Nat
  isoLookup : String → Option String
  geo : GeoOracle
  gadmNames : Table

/-- Lines 147–597 of `normalizer`: everything after the frame has been
restricted to the schema-named columns.  `df` here is the subsetted frame;
`mapper` and `renamed_col_dict` are the collision-resolved schema and partial
ledger. -/
def normalizerPost (o : Oracles) (mapper : Mapper) (admin : String)
    (df_geocode : Table) (renamed_col_dict : List (String × List String))
    (df : Table) :
    Except String (Table × List (String × List String) × Table) :=
  let col_order := COL_ORDER
  let required_cols :=
    ["timestamp", "country", "admin1", "admin2", "admin3", "lat", "lng"]
  let primary_time_cols :=
    (mapper.date.filter (fun d => d.primary_date == some true)).map (·.name)
  let primary_geo_cols :=
    (mapper.geo.filter (fun d => d.primary_geo == some true)).map (·.name)
  let primary_geo_types :=
    (mapper.geo.filter (fun d => d.primary_geo == some true)).map (·.geo_type)
  let st0 : NormSt :=
    { df := df, features := [], primary_dgm := [], other_dgm := [],
      qcd := [], renamed := renamed_col_dict }
  let st := mapper.date.foldl (dateLoopStep o.parse primary_time_cols) st0
  let st := applyPrimaryDateGroup o.parse st
  match drain_other_date_groups o.parse st with
  | .error e => .error e
  | .ok st =>
  match mapper.geo.foldlM (geoLoopStep o.isoLookup primary_geo_cols) st with
  | .error e => .error e
  | .ok st =>
    let st := mapper.feature.foldl featureLoopStep st
    let geocoded :=
      if st.df.hasCol "lat" && st.df.hasCol "lng" then
        geocode o.geo admin st.df "lng" "lat" df_geocode
      else if primary_geo_types.contains "country" ||
          (st.df.hasCol "country" && primary_geo_types.isEmpty) then
        let resolve_to_gadm_geotypes :=
          (mapper.geo.filter (fun k => k.resolve_to_gadm == some true)).map
            (·.geo_type)
        if resolve_to_gadm_geotypes.isEmpty then (st.df, df_geocode)
        else
          (match_geo_names o.score admin st.df resolve_to_gadm_geotypes
            o.gadmNames, df_geocode)
      else (st.df, df_geocode)
    let df := geocoded.1
    let df_geocode := geocoded.2
    let df_geo_cols :=
      df.header.filter (fun c => strContains c "mixmasta_geocoded")
    let df := df_geo_cols.foldl
      (fun (t : Table) c => t.rename c (strRemoveAll c "_mixmasta_geocoded")) df
    let protected_cols := required_cols.filter (fun c => df.hasCol c)
    let pc := st.qcd.foldl
      (fun (acc : List String × List String) kv =>
        if acc.1.contains kv.1 then (acc.1 ++ kv.2, acc.2 ++ kv.2) else acc)
      (protected_cols, col_order)
    match feature_pivot df st.features pc.1 st.qcd pc.2 with
    | .error e => .error e
    | .ok piv => .ok (piv.1, audit_renamed_col_dict st.renamed, df_geocode)

/-- `normalizer(df, mapper, admin, gadm, df_geocode)`: the full pipeline
(lines 28–597), returning the normalized frame, the audited rename ledger and
the updated geocode cache.  Resolves column-name collisions, restricts the
frame to the schema-named columns (line 145), and hands off to
`normalizerPost`. -/
def normalizer (o : Oracles) (df : Table) (mapper : Mapper) (admin : String)
    (df_geocode : Table) :
    Except String (Table × List (String × List String) × Table) :=
  let hcc := handle_colname_collisions df mapper COL_ORDER
  match hcc.1.selectE (mapperNames hcc.2.1) with
  | .error e => .error e
  | .ok df2 => normalizerPost o hcc.2.1 admin df_geocode hcc.2.2 df2

/-! # Theorems

## Claim C8 — ledger acyclicity after auditing -/

theorem auditRemoveSet_mono (dct : List (String × List String)) (x : String) :
    ∀ (l : List (String × List String)) (acc : List String), x ∈ acc →
      x ∈ l.foldl (fun acc kv =>
        let vstr := String.join kv.2
        if dct.any (fun p => p.1 = vstr) && dct.any (fun p => p.2 = [kv.1]) then
          vstr :: kv.1 :: acc
        else acc) acc := by
  intro l
  induction l with
  | nil => intro acc hx; simpa using hx
  | cons hd tl ih =>
    intro acc hx
    simp only [List.foldl_cons]
    apply ih
    dsimp only
    split
    · exact List.mem_cons_of_mem _ (List.mem_cons_of_mem _ hx)
    · exact hx

theorem auditRemoveSet_of_mem (dct : List (String × List String))
    (kv : String × List String)
    (hcond : (dct.any (fun p => p.1 = String.join kv.2)
      && dct.any (fun p => p.2 = [kv.1])) = true) :
    ∀ (l : List (String × List String)) (acc : List String), kv ∈ l →
      kv.1 ∈ l.foldl (fun acc kv =>
        let vstr := String.join kv.2
        if dct.any (fun p => p.1 = vstr) && dct.any (fun p => p.2 = [kv.1]) then
          vstr :: kv.1 :: acc
        else acc) acc := by
  intro l
  induction l with
  | nil => intro acc h; simp at h
  | cons hd tl ih =>
    intro acc hmem
    simp only [List.foldl_cons]
    rcases List.mem_cons.mp hmem with heq | htl
    · subst heq
      apply auditRemoveSet_mono
      dsimp only
      split
      · exact List.mem_cons_of_mem _ (List.mem_cons_self _ _)
      · next hfalse => exact absurd hcond (by simpa using hfalse)
    · exact ih _ htl

/-- C8: for every rename ledger, the audited dictionary never contains, for
any two names `A` and `B`, both the entry `A → [B]` and the entry `B → [A]`:
each such cyclic pair is removed by `audit_renamed_col_dict`. -/
theorem C8_ledger_acyclicity (dct : List (String × List String)) (A B : String)
    (h : (A, [B]) ∈ audit_renamed_col_dict dct) :
    (B, [A]) ∉ audit_renamed_col_dict dct := by
  intro hB
  unfold audit_renamed_col_dict at h hB
  rw [List.mem_filter] at h hB
  obtain ⟨hAmem, hAkeep⟩ := h
  obtain ⟨hBmem, _⟩ := hB
  have hjoin : String.join [B] = B := by simp [String.join]
  have hcond : (dct.any (fun p => p.1 = String.join (A, [B]).2)
      && dct.any (fun p => p.2 = [(A, [B]).1])) = true := by
    rw [Bool.and_eq_true]
    refine ⟨List.any_eq_true.mpr ⟨(B, [A]), hBmem, by simp [hjoin]⟩,
      List.any_eq_true.mpr ⟨(B, [A]), hBmem, by simp⟩⟩
  have hin : A ∈ auditRemoveSet dct :=
    auditRemoveSet_of_mem dct (A, [B]) hcond dct [] hAmem
  have hout : A ∉ auditRemoveSet dct := by simpa using hAkeep
  exact hout hin

/-- Witness for C8 at a concrete ledger. -/
theorem C8_ledger_acyclicity_witness :
    ("country_non_primary", ["country"]) ∈
        audit_renamed_col_dict [("country_non_primary", ["country"])] ∧
      ("country", ["country_non_primary"]) ∉
        audit_renamed_col_dict [("country_non_primary", ["country"])] :=
  ⟨by decide, C8_ledger_acyclicity _ _ _ (by decide)⟩

/-! ## Claim C2 — `format_time` behaviour -/

theorem format_time_parse_some (parse : String → String → Option Int)
    (t fmt : String) (v : Bool) (s : Int) (h : parse t fmt = some s) :
    format_time parse t fmt v = .ok (some (s * 1000)) := by
  rw [format_time, h]

theorem format_time_retry (parse : String → String → Option Int)
    (t fmt : String) (v : Bool) (h1 : parse t fmt = none)
    (h2 : strEndsWith t " 00:00:00" = true) :
    format_time parse t fmt v =
      format_time parse (strRemoveAll t " 00:00:00") fmt v := by
  rw [format_time, h1]
  exact dif_pos h2

theorem format_time_fail (parse : String → String → Option Int)
    (t fmt : String) (v : Bool) (h1 : parse t fmt = none)
    (h2 : strEndsWith t " 00:00:00" = false) :
    format_time parse t fmt v =
      if v then .error "time parse error" else .ok none := by
  rw [format_time, h1]
  exact dif_neg (by simp [h2])

theorem strRemoveAll_data_length_lt (t : String)
    (h : strEndsWith t " 00:00:00" = true) :
    (strRemoveAll t " 00:00:00").data.length < t.data.length :=
  listRemoveAll_length_lt (" 00:00:00".data) (by decide) t.data h

theorem format_time_false_ok (parse : String → String → Option Int)
    (fmt : String) : ∀ t : String, ∃ r, format_time parse t fmt false = .ok r := by
  have H : ∀ n (t : String), t.data.length ≤ n →
      ∃ r, format_time parse t fmt false = .ok r := by
    intro n
    induction n with
    | zero =>
      intro t ht
      cases hp : parse t fmt with
      | some s => exact ⟨_, format_time_parse_some parse t fmt false s hp⟩
      | none =>
        cases he : strEndsWith t " 00:00:00" with
        | true =>
          exfalso
          have hlt := strRemoveAll_data_length_lt t he
          omega
        | false =>
          exact ⟨none, by rw [format_time_fail parse t fmt false hp he]; simp⟩
    | succ n ih =>
      intro t ht
      cases hp : parse t fmt with
      | some s => exact ⟨_, format_time_parse_some parse t fmt false s hp⟩
      | none =>
        cases he : strEndsWith t " 00:00:00" with
        | true =>
          rw [format_time_retry parse t fmt false hp he]
          apply ih
          have hlt := strRemoveAll_data_length_lt t he
          omega
        | false =>
          exact ⟨none, by rw [format_time_fail parse t fmt false hp he]; simp⟩
  intro t
  exact H t.data.length t le_rfl

theorem format_time_error_iff (parse : String → String → Option Int)
    (fmt : String) : ∀ t : String,
    (∃ e, format_time parse t fmt true = .error e) ↔
      format_time parse t fmt false = .ok none := by
  have H : ∀ n (t : String), t.data.length ≤ n →
      ((∃ e, format_time parse t fmt true = .error e) ↔
        format_time parse t fmt false = .ok none) := by
    intro n
    induction n with
    | zero =>
      intro t ht
      cases hp : parse t fmt with
      | some s =>
        rw [format_time_parse_some parse t fmt true s hp,
          format_time_parse_some parse t fmt false s hp]
        simp
      | none =>
        cases he : strEndsWith t " 00:00:00" with
        | true =>
          exfalso
          have hlt := strRemoveAll_data_length_lt t he
          omega
        | false =>
          rw [format_time_fail parse t fmt true hp he,
            format_time_fail parse t fmt false hp he]
          simp
    | succ n ih =>
      intro t ht
      cases hp : parse t fmt with
      | some s =>
        rw [format_time_parse_some parse t fmt true s hp,
          format_time_parse_some parse t fmt false s hp]
        simp
      | none =>
        cases he : strEndsWith t " 00:00:00" with
        | true =>
          rw [format_time_retry parse t fmt true hp he,
            format_time_retry parse t fmt false hp he]
          apply ih
          have hlt := strRemoveAll_data_length_lt t he
          omega
        | false =>
          rw [format_time_fail parse t fmt true hp he,
            format_time_fail parse t fmt false hp he]
          simp
  intro t
  exact H t.data.length t le_rfl

theorem listRemoveAll_onlyEnd (pat : List Char) (hpat : pat ≠ []) :
    ∀ u : List Char,
      (∀ i, i < u.length → ¬ pat.isPrefixOf ((u ++ pat).drop i) = true) →
      listRemoveAll pat (u ++ pat) = u := by
  intro u
  induction u with
  | nil =>
    intro _
    rw [List.nil_append]
    obtain ⟨d, ds, hds⟩ := List.exists_cons_of_ne_nil hpat
    subst hds
    rw [listRemoveAll]
    rw [dif_pos ⟨by simp, List.isPrefixOf_iff_prefix.mpr (List.prefix_refl _)⟩]
    rw [show (d :: ds).length = (d :: ds).length from rfl, List.drop_length,
      listRemoveAll]
  | cons c cs ih =>
    intro h
    have h0 : ¬ pat.isPrefixOf (c :: (cs ++ pat)) = true := by
      have := h 0 (by simp)
      simpa using this
    rw [List.cons_append, listRemoveAll]
    rw [dif_neg (by rintro ⟨_, hpre⟩; exact h0 hpre)]
    congr 1
    apply ih
    intro i hi
    have := h (i + 1) (by simp only [List.length_cons]; omega)
    simpa using this

/-- C2: `format_time` returns the parsed epoch time in milliseconds on
success; on failure it strips the `" 00:00:00"` spreadsheet artifact (when the
artifact occurs only as the suffix, the stripped string is exactly the prefix)
and retries; an ultimate failure raises iff `validate` is true and yields null
(without raising) when `validate` is false — in particular the invalid date
`2/31/2020` (day 31 in February) with validation disabled yields null, not an
error. -/
theorem C2_format_time (parse : String → String → Option Int) (t fmt : String) :
    (∀ s : Int, parse t fmt = some s →
      ∀ v : Bool, format_time parse t fmt v = .ok (some (s * 1000))) ∧
    (parse t fmt = none → strEndsWith t " 00:00:00" = true →
      ∀ v : Bool, format_time parse t fmt v =
        format_time parse (strRemoveAll t " 00:00:00") fmt v) ∧
    (∀ u : String, t = u ++ " 00:00:00" →
      (∀ i, i < u.data.length →
        ¬ (" 00:00:00".data.isPrefixOf (t.data.drop i)) = true) →
      strRemoveAll t " 00:00:00" = u) ∧
    (∃ r, format_time parse t fmt false = .ok r) ∧
    ((∃ e, format_time parse t fmt true = .error e) ↔
      format_time parse t fmt false = .ok none) ∧
    format_time (strptimeModel 0) "2/31/2020" "%m/%d/%Y" false = .ok none := by
  refine ⟨fun s h v => format_time_parse_some parse t fmt v s h,
    fun h1 h2 v => format_time_retry parse t fmt v h1 h2,
    ?_, format_time_false_ok parse fmt t, format_time_error_iff parse fmt t, ?_⟩
  · intro u ht honce
    subst ht
    obtain ⟨l⟩ := u
    show String.mk (listRemoveAll (" 00:00:00".data) (String.mk l ++ " 00:00:00").data)
      = String.mk l
    have hdata : (String.mk l ++ " 00:00:00").data = l ++ " 00:00:00".data := rfl
    rw [hdata]
    rw [listRemoveAll_onlyEnd (" 00:00:00".data) (by decide) l]
    intro i hi
    have := honce i hi
    rw [hdata] at this
    exact this
  · rw [format_time_fail _ _ _ _ (by decide) (by decide)]
    simp

/-- Witness for C2: a successfully parsed date returns epoch milliseconds. -/
theorem C2_format_time_witness :
    strptimeModel 0 "06/15/2020" "%m/%d/%Y" = some 1592179200 ∧
      format_time (strptimeModel 0) "06/15/2020" "%m/%d/%Y" false =
        .ok (some (1592179200 * 1000)) :=
  ⟨by decide,
    (C2_format_time (strptimeModel 0) "06/15/2020" "%m/%d/%Y").1 1592179200
      (by decide) false⟩

/-! ## Claim C9 — date-assembly correctness for day=15, month=6, year=2020 -/

/-- One row with day=15, month=6, year=2020 (integer-typed columns). -/
def dfC9 : Table :=
  { header := ["day", "month", "year"]
    rows := [[some (.int 15), some (.int 6), some (.int 2020)]] }

/-- The associated date group: per-field formats `%d`, `%m`, `%Y`. -/
def dmC9 : List (String × Ann) :=
  [("day", { name := "day", date_type := "day", time_format := "%d" }),
   ("month", { name := "month", date_type := "month", time_format := "%m" }),
   ("year", { name := "year", date_type := "year", time_format := "%Y" })]

theorem strptime_C9_assembled (off : Int) :
    strptimeModel off "6/15/2020" "%m/%d/%Y" = some (1592179200 - off) := rfl

theorem strptime_C9_direct (off : Int) :
    strptimeModel off "06/15/2020" "%m/%d/%Y" = some (1592179200 - off) := rfl

/-- C9: assembling the day=15/month=6/year=2020 group via
`generate_timestamp_column`, `generate_timestamp_format` and `format_time`
yields exactly the epoch milliseconds of directly parsing `"06/15/2020"` with
`"%m/%d/%Y"` — for every local timezone offset `off` used by
`datetime.timestamp()`. -/
theorem C9_date_correctness (off : Int) :
    generate_timestamp_format dmC9 = "%m/%d/%Y" ∧
    (generate_timestamp_column dfC9 dmC9 "timestamp").cellAt
        ((generate_timestamp_column dfC9 dmC9 "timestamp").rows.getD 0 [])
        "timestamp" = some (.str "6/15/2020") ∧
    format_time (strptimeModel off) "6/15/2020" (generate_timestamp_format dmC9)
        false =
      format_time (strptimeModel off) "06/15/2020" "%m/%d/%Y" false ∧
    format_time (strptimeModel off) "6/15/2020" (generate_timestamp_format dmC9)
        false = .ok (some ((1592179200 - off) * 1000)) := by
  have hf : generate_timestamp_format dmC9 = "%m/%d/%Y" := by decide
  refine ⟨hf, by decide, ?_, ?_⟩
  · rw [hf, format_time_parse_some _ _ _ _ _ (strptime_C9_assembled off),
      format_time_parse_some _ _ _ _ _ (strptime_C9_direct off)]
  · rw [hf, format_time_parse_some _ _ _ _ _ (strptime_C9_assembled off)]

/-! ## Claim C7 — idempotence of `handle_colname_collisions` -/

theorem strEndsWith_append (s p : String) : strEndsWith (s ++ p) p = true := by
  unfold strEndsWith
  rw [List.isSuffixOf_iff_suffix, String.data_append]
  exact List.suffix_append _ _

theorem suffixAnn_name (cl : List String) (a : Ann) :
    (suffixAnn cl a).name =
      if cl.contains a.name then a.name ++ "_non_primary" else a.name := by
  unfold suffixAnn
  split
  · rfl
  · split
    · rfl
    · split <;> rfl

theorem suffixAnn_primary_geo (cl : List String) (a : Ann) :
    (suffixAnn cl a).primary_geo = a.primary_geo := by
  unfold suffixAnn
  split
  · rfl
  · split
    · rfl
    · split <;> rfl

theorem suffixAnn_primary_date (cl : List String) (a : Ann) :
    (suffixAnn cl a).primary_date = a.primary_date := by
  unfold suffixAnn
  split
  · rfl
  · split
    · rfl
    · split <;> rfl

theorem suffixAnn_qualifies_nil (cl : List String) (a : Ann) :
    ((suffixAnn cl a).qualifies = []) ↔ (a.qualifies = []) := by
  unfold suffixAnn
  split
  · exact Iff.rfl
  · split
    · simp
    · split <;> exact Iff.rfl

theorem mem_collisionList_geo (m : Mapper) (P : List String) (a : Ann)
    (ha : a ∈ m.geo) (h1 : P.contains a.name = true)
    (h2 : a.primary_geo ≠ some true) : a.name ∈ collisionList m P := by
  unfold collisionList
  refine List.mem_append.mpr (.inl (List.mem_append.mpr (.inl ?_)))
  exact List.mem_map.mpr ⟨a, List.mem_filter.mpr ⟨ha, by
    have h1m : a.name ∈ P := by simpa using h1
    simp [h1m, h2]⟩, rfl⟩

theorem mem_collisionList_date (m : Mapper) (P : List String) (a : Ann)
    (ha : a ∈ m.date) (h1 : P.contains a.name = true)
    (h2 : a.primary_date ≠ some true) : a.name ∈ collisionList m P := by
  unfold collisionList
  refine List.mem_append.mpr (.inl (List.mem_append.mpr (.inr ?_)))
  exact List.mem_map.mpr ⟨a, List.mem_filter.mpr ⟨ha, by
    have h1m : a.name ∈ P := by simpa using h1
    simp [h1m, h2]⟩, rfl⟩

theorem mem_collisionList_feature (m : Mapper) (P : List String) (a : Ann)
    (ha : a ∈ m.feature) (h1 : P.contains a.name = true)
    (h2 : a.qualifies ≠ []) : a.name ∈ collisionList m P := by
  unfold collisionList
  refine List.mem_append.mpr (.inr ?_)
  exact List.mem_map.mpr ⟨a, List.mem_filter.mpr ⟨ha, by
    have h1m : a.name ∈ P := by simpa using h1
    simp [h1m, h2]⟩, rfl⟩

theorem collisionList_after (m : Mapper) (P : List String)
    (hP : ∀ s ∈ P, strEndsWith s "_non_primary" = false) :
    collisionList
      { geo := m.geo.map (suffixAnn (collisionList m P)),
        date := m.date.map (suffixAnn (collisionList m P)),
        feature := m.feature.map (suffixAnn (collisionList m P)) } P = [] := by
  set cl := collisionList m P with hcl
  have hren : ∀ a : Ann, cl.contains a.name = true →
      P.contains (suffixAnn cl a).name = false := by
    intro a hc
    rw [suffixAnn_name, if_pos hc]
    cases hmem : P.contains (a.name ++ "_non_primary") with
    | false => rfl
    | true =>
      have hin : (a.name ++ "_non_primary") ∈ P := by simpa using hmem
      have := hP _ hin
      rw [strEndsWith_append] at this
      exact absurd this (by simp)
  conv_lhs => unfold collisionList
  dsimp only
  rw [List.append_eq_nil, List.append_eq_nil]
  refine ⟨⟨?_, ?_⟩, ?_⟩ <;>
    · rw [List.map_eq_nil_iff, List.filter_eq_nil_iff]
      intro a' ha'
      obtain ⟨a, ha, rfl⟩ := List.mem_map.mp ha'
      cases hc : cl.contains a.name with
      | true =>
        intro hpred
        rw [Bool.and_eq_true] at hpred
        rw [hren a hc] at hpred
        exact absurd hpred.1 (by simp)
      | false =>
        intro hpred
        rw [Bool.and_eq_true] at hpred
        have hname : (suffixAnn cl a).name = a.name := by
          rw [suffixAnn_name, hc]
          rfl
        rw [hname] at hpred
        have hmemcl : a.name ∈ cl := by
          first
          | exact hcl ▸ mem_collisionList_geo m P a ha hpred.1
              (by have := hpred.2; rw [suffixAnn_primary_geo] at this; simpa using this)
          | exact hcl ▸ mem_collisionList_date m P a ha hpred.1
              (by have := hpred.2; rw [suffixAnn_primary_date] at this; simpa using this)
          | exact hcl ▸ mem_collisionList_feature m P a ha hpred.1
              (by have := hpred.2; simp only [decide_eq_true_eq] at this
                  exact fun hnil => this ((suffixAnn_qualifies_nil cl a).mpr hnil))
        have : cl.contains a.name = true := by simpa using hmemcl
        rw [hc] at this
        exact absurd this (by simp)

theorem handle_colname_collisions_of_nil (df : Table) (m : Mapper)
    (P : List String) (h : collisionList m P = []) :
    handle_colname_collisions df m P = (df, m, []) := by
  simp only [handle_colname_collisions]
  rw [h]
  simp

theorem handle_colname_collisions_mapper_of_ne (df : Table) (m : Mapper)
    (P : List String) (h : ¬ collisionList m P = []) :
    (handle_colname_collisions df m P).2.1 =
      { geo := m.geo.map (suffixAnn (collisionList m P)),
        date := m.date.map (suffixAnn (collisionList m P)),
        feature := m.feature.map (suffixAnn (collisionList m P)) } := by
  simp only [handle_colname_collisions]
  rw [if_neg h]

/-- C7 (amended): when no reserved name itself ends in `"_non_primary"` — true
of the actual reserved set `COL_ORDER` — `handle_colname_collisions` is
idempotent: a second application to the table and schema it returned performs
no further renames and returns its inputs unchanged with an empty ledger. -/
theorem C7_collisions_idempotent (df : Table) (m : Mapper) (P : List String)
    (hP : ∀ s ∈ P, strEndsWith s "_non_primary" = false) :
    handle_colname_collisions (handle_colname_collisions df m P).1
        (handle_colname_collisions df m P).2.1 P =
      ((handle_colname_collisions df m P).1,
       (handle_colname_collisions df m P).2.1, []) := by
  by_cases hcl : collisionList m P = []
  · have h1 := handle_colname_collisions_of_nil df m P hcl
    rw [h1]
    exact h1
  · have hm := handle_colname_collisions_mapper_of_ne df m P hcl
    have h2 : collisionList (handle_colname_collisions df m P).2.1 P = [] := by
      rw [hm]
      exact collisionList_after m P hP
    exact handle_colname_collisions_of_nil _ _ _ h2

/-- C7 counterexample: with the reserved set `["value", "value_non_primary"]`
(quantified over in the claim), a second application of
`handle_colname_collisions` to its own output renames again and returns a
non-empty ledger. -/
theorem C7_collisions_counterexample :
    (handle_colname_collisions
        (handle_colname_collisions
          { header := ["value"], rows := [] }
          { geo := [], date := [],
            feature := [{ name := "value", qualifies := ["x"] }] }
          ["value", "value_non_primary"]).1
        (handle_colname_collisions
          { header := ["value"], rows := [] }
          { geo := [], date := [],
            feature := [{ name := "value", qualifies := ["x"] }] }
          ["value", "value_non_primary"]).2.1
        ["value", "value_non_primary"]).2.2 =
      [("value_non_primary_non_primary", ["value_non_primary"])] := by decide

/-- Witness for the amended C7 at the real reserved set. -/
theorem C7_collisions_idempotent_witness :
    handle_colname_collisions
        (handle_colname_collisions { header := ["country"], rows := [] }
          { geo := [{ name := "country", geo_type := "country" }], date := [],
            feature := [] } COL_ORDER).1
        (handle_colname_collisions { header := ["country"], rows := [] }
          { geo := [{ name := "country", geo_type := "country" }], date := [],
            feature := [] } COL_ORDER).2.1 COL_ORDER =
      ((handle_colname_collisions { header := ["country"], rows := [] }
          { geo := [{ name := "country", geo_type := "country" }], date := [],
            feature := [] } COL_ORDER).1,
       (handle_colname_collisions { header := ["country"], rows := [] }
          { geo := [{ name := "country", geo_type := "country" }], date := [],
            feature := [] } COL_ORDER).2.1, []) :=
  C7_collisions_idempotent _ _ _ (by decide)

/-! ## Claim C4 — geocode cache: no resubmission, append-only growth -/

/-- C4: a coordinate pair already present in the geocode cache is never
submitted to the point-in-polygon join (only deduplicated pairs absent from
the cache are), and the returned cache is exactly the input cache's rows
followed by one new row per submitted pair — the cache only grows and never
evicts.  The well-formedness hypothesis says the incoming cache is either
empty or shaped as `geocode` itself produces it. -/
theorem C4_geocode_cache (go : GeoOracle) (admin : String) (df : Table)
    (x y : String) (cache : Table)
    (hWF : cache.rows = [] ∨ cache.header = [x, y] ++ go.adminCols) :
    (∀ p ∈ geocode_submitted df x y cache,
      ∀ s ∈ cache.rows, ¬(cache.cellAt s x = p.1 ∧ cache.cellAt s y = p.2)) ∧
    (geocode go admin df x y cache).2.rows =
      cache.rows ++ (geocode_submitted df x y cache).map (geocodeNewRow go) := by
  constructor
  · intro p hp s hs h
    obtain ⟨hx, hy⟩ := h
    unfold geocode_submitted at hp
    by_cases hc : cache.rows.isEmpty = true
    · rw [if_pos hc] at hp
      rw [List.isEmpty_iff] at hc
      rw [hc] at hs
      exact absurd hs (List.not_mem_nil s)
    · rw [if_neg hc] at hp
      obtain ⟨hmem, hfilt⟩ := List.mem_filter.mp hp
      rw [Bool.not_eq_true'] at hfilt
      unfold cachedPair at hfilt
      rw [List.any_eq_false] at hfilt
      have := hfilt s hs
      simp [hx, hy] at this
  · unfold geocode
    dsimp only
    by_cases hnp : (geocode_submitted df x y cache).isEmpty = true
    · rw [if_pos hnp]
      rw [List.isEmpty_iff] at hnp
      rw [hnp]
      simp
    · rw [if_neg hnp]
      by_cases hce : cache.rows.isEmpty = true
      · rw [if_pos hce]
        rw [List.isEmpty_iff] at hce
        rw [hce]
        simp
      · rw [if_neg hce]
        have hh : cache.header = [x, y] ++ go.adminCols := by
          rcases hWF with h | h
          · rw [List.isEmpty_iff] at hce
            exact absurd h hce
          · exact h
        unfold Table.append
        rw [if_pos hh.symm]

/-- Witness data for C4: a one-row cache and a two-point frame sharing one
cached pair. -/
def goW4 : GeoOracle :=
  { adminCols := ["country"],
    sjoin := fun _ _ => some [some (.str "Ethiopia")] }

def cacheW4 : Table :=
  { header := ["lng", "lat", "country"]
    rows := [[some (.int 1), some (.int 2), some (.str "Kenya")]] }

def dfW4 : Table :=
  { header := ["lng", "lat"]
    rows := [[some (.int 1), some (.int 2)], [some (.int 3), some (.int 4)]] }

/-- Witness for C4 at concrete inputs. -/
theorem C4_geocode_cache_witness :
    (∀ p ∈ geocode_submitted dfW4 "lng" "lat" cacheW4,
      ∀ s ∈ cacheW4.rows,
        ¬(cacheW4.cellAt s "lng" = p.1 ∧ cacheW4.cellAt s "lat" = p.2)) ∧
    (geocode goW4 "admin2" dfW4 "lng" "lat" cacheW4).2.rows =
      cacheW4.rows ++
        (geocode_submitted dfW4 "lng" "lat" cacheW4).map (geocodeNewRow goW4) :=
  C4_geocode_cache goW4 "admin2" dfW4 "lng" "lat" cacheW4 (by decide)

/-! ## Claim C5 — fuzzy name reconciliation -/

theorem extractOne_spec (score : Cell → Cell → Nat) (q : Cell) :
    ∀ (cs : List Cell) (b : Cell),
      (cs.foldl (fun best ch => if score q best < score q ch then ch else best) b)
          ∈ b :: cs ∧
      score q b ≤
        score q (cs.foldl
          (fun best ch => if score q best < score q ch then ch else best) b) ∧
      ∀ ch ∈ cs, score q ch ≤
        score q (cs.foldl
          (fun best ch => if score q best < score q ch then ch else best) b) := by
  intro cs
  induction cs with
  | nil => simp
  | cons c cs ih =>
    intro b
    simp only [List.foldl_cons]
    obtain ⟨h1, h2, h3⟩ := ih (if score q b < score q c then c else b)
    have hble : score q b ≤ score q (if score q b < score q c then c else b) := by
      split
      · next h => exact Nat.le_of_lt h
      · exact le_rfl
    have hcle : score q c ≤ score q (if score q b < score q c then c else b) := by
      split
      · exact le_rfl
      · next h => exact Nat.le_of_not_lt h
    refine ⟨?_, hble.trans h2, ?_⟩
    · rcases List.mem_cons.mp h1 with h | h
      · rw [h]
        split <;> simp
      · exact List.mem_cons_of_mem _ (List.mem_cons_of_mem _ h)
    · intro ch hch
      rcases List.mem_cons.mp hch with h | h
      · exact h ▸ hcle.trans h2
      · exact h3 ch h

/-- C5 (amended): within one country's pass, an unknown value with an empty
candidate list is left unchanged (the absent-match case; the effective
fuzzy-match threshold is 0, so any non-empty candidate list produces a
replacement); with candidates present, the replacement is a best-scoring
candidate from the list scoped to the country being processed — but the
in-place update rewrites every row of the whole table whose level value
equals the unknown, not only the rows of that country. -/
theorem C5_name_matching (score : Cell → Cell → Nat) (level : String)
    (choices : List Cell) (df : Table) (unk : Cell) :
    (choices = [] → fixUnknown score level choices df unk = df) ∧
    (∀ c cs, choices = c :: cs →
      ∃ best ∈ choices,
        (∀ ch ∈ choices, score unk ch ≤ score unk best) ∧
        fixUnknown score level choices df unk =
          df.setWhere (fun r => df.cellAt r level == unk) level best) := by
  constructor
  · intro h
    subst h
    rfl
  · intro c cs h
    subst h
    obtain ⟨h1, h2, h3⟩ := extractOne_spec score unk cs c
    refine ⟨_, h1, ?_, rfl⟩
    intro ch hch
    rcases List.mem_cons.mp hch with h | h
    · exact h ▸ h2
    · exact h3 ch h

/-- Concrete inputs for the C5 counterexample: country A's gazetteer has only
"AA" at admin2; country B's has "BB" and "Xyz"; both data rows carry admin2
"Xyz", which is valid for B but unknown for A. -/
def gadmC5 : Table :=
  { header := ["country", "admin2"]
    rows := [[some (.str "A"), some (.str "AA")],
             [some (.str "B"), some (.str "BB")],
             [some (.str "B"), some (.str "Xyz")]] }

def dfC5 : Table :=
  { header := ["country", "admin2"]
    rows := [[some (.str "A"), some (.str "Xyz")],
             [some (.str "B"), some (.str "Xyz")]] }

/-- C5 counterexample: processing country A replaces "Xyz" in *every* row —
including the country-B row whose value was already a valid B candidate — and
processing country B then drags both rows to "BB".  The final country-A row
holds "BB", which is not among country A's scoped candidates, contradicting
the claim that replacements are drawn from the row's own parent scope and
that below-threshold/valid values stay unchanged. -/
theorem C5_name_matching_counterexample :
    (match_geo_names (fun _ _ => 0) "admin2" dfC5 [GEO_TYPE_ADMIN2] gadmC5).rows =
        [[some (.str "A"), some (.str "BB")],
         [some (.str "B"), some (.str "BB")]] ∧
      ¬ (some (Value.str "BB") ∈
          (gadmC5.rows.filter (fun r =>
            gadmC5.cellAt r "country" == some (.str "A"))).map
            (fun r => gadmC5.cellAt r "admin2")) ∧
      some (Value.str "Xyz") ∈
        (gadmC5.rows.filter (fun r =>
          gadmC5.cellAt r "country" == some (.str "B"))).map
          (fun r => gadmC5.cellAt r "admin2") := by decide

/-- Witness for the amended C5: an empty candidate list leaves the frame
unchanged. -/
theorem C5_name_matching_witness :
    fixUnknown (fun _ _ => 0) "admin2" [] dfC5 (some (.str "Q")) = dfC5 :=
  (C5_name_matching (fun _ _ => 0) "admin2" [] dfC5 (some (.str "Q"))).1 rfl

/-! ## Claim C3 — secondary associated date groups -/

theorem dedupFirst_foldl_mem {α : Type} [DecidableEq α] (x : α) :
    ∀ (l acc : List α),
      (x ∈ l.foldl (fun acc a => if a ∈ acc then acc else acc ++ [a]) acc) ↔
        (x ∈ acc ∨ x ∈ l) := by
  intro l
  induction l with
  | nil => intro acc; simp
  | cons a l ih =>
    intro acc
    simp only [List.foldl_cons]
    by_cases ha : a ∈ acc
    · rw [if_pos ha, ih]
      constructor
      · rintro (h | h)
        · exact .inl h
        · exact .inr (List.mem_cons_of_mem _ h)
      · rintro (h | h)
        · exact .inl h
        · rcases List.mem_cons.mp h with rfl | h
          · exact .inl ha
          · exact .inr h
    · rw [if_neg ha, ih]
      simp only [List.mem_append, List.mem_singleton, List.mem_cons]
      tauto

theorem mem_dedupFirst {α : Type} [DecidableEq α] (x : α) (l : List α) :
    x ∈ dedupFirst l ↔ x ∈ l := by
  unfold dedupFirst
  rw [dedupFirst_foldl_mem]
  simp

theorem dedupFirst_foldl_nodup {α : Type} [DecidableEq α] :
    ∀ (l acc : List α), acc.Nodup →
      (l.foldl (fun acc a => if a ∈ acc then acc else acc ++ [a]) acc).Nodup := by
  intro l
  induction l with
  | nil => intro acc h; simpa using h
  | cons a l ih =>
    intro acc h
    simp only [List.foldl_cons]
    apply ih
    by_cases ha : a ∈ acc
    · rw [if_pos ha]
      exact h
    · rw [if_neg ha, List.nodup_append]
      exact ⟨h, List.nodup_singleton a,
        fun x hx hxs => ha (List.mem_singleton.mp hxs ▸ hx)⟩

theorem dedupFirst_nodup {α : Type} [DecidableEq α] (l : List α) :
    (dedupFirst l).Nodup :=
  dedupFirst_foldl_nodup l [] (by simp)

/-- The code's `len(frozenset(date_types).intersection(MONTH_DAY_YEAR)) == 3`
test holds exactly when all three of day/month/year occur among the group's
date types. -/
theorem mdy_count_iff (dts : List String) :
    ((dedupFirst dts).filter (fun t => MONTH_DAY_YEAR.contains t)).length = 3 ↔
      ("day" ∈ dts ∧ "month" ∈ dts ∧ "year" ∈ dts) := by
  set lf := (dedupFirst dts).filter (fun t => MONTH_DAY_YEAR.contains t) with hlf
  have hnd : lf.Nodup := List.Nodup.filter _ (dedupFirst_nodup dts)
  have hmem : ∀ x, x ∈ lf ↔
      (x ∈ dts ∧ (x = "day" ∨ x = "month" ∨ x = "year")) := by
    intro x
    rw [hlf, List.mem_filter, mem_dedupFirst]
    simp [MONTH_DAY_YEAR]
  have hcard : lf.toFinset.card = lf.length := List.toFinset_card_of_nodup hnd
  have hsub : lf.toFinset ⊆ ({"day", "month", "year"} : Finset String) := by
    intro x hx
    rw [List.mem_toFinset] at hx
    rcases ((hmem x).mp hx).2 with h | h | h <;> simp [h]
  have hcards : ({"day", "month", "year"} : Finset String).card = 3 := by decide
  constructor
  · intro h3
    have heq : lf.toFinset = {"day", "month", "year"} :=
      Finset.eq_of_subset_of_card_le hsub (by rw [hcard, h3, hcards])
    refine ⟨?_, ?_, ?_⟩
    · have hd : "day" ∈ lf.toFinset := by rw [heq]; simp
      rw [List.mem_toFinset] at hd
      exact ((hmem _).mp hd).1
    · have hd : "month" ∈ lf.toFinset := by rw [heq]; simp
      rw [List.mem_toFinset] at hd
      exact ((hmem _).mp hd).1
    · have hd : "year" ∈ lf.toFinset := by rw [heq]; simp
      rw [List.mem_toFinset] at hd
      exact ((hmem _).mp hd).1
  · rintro ⟨hd, hm, hy⟩
    have hsup : ({"day", "month", "year"} : Finset String) ⊆ lf.toFinset := by
      intro x hx
      rw [List.mem_toFinset]
      simp only [Finset.mem_insert, Finset.mem_singleton] at hx
      rcases hx with rfl | rfl | rfl
      · exact (hmem _).mpr ⟨hd, .inl rfl⟩
      · exact (hmem _).mpr ⟨hm, .inr (.inl rfl)⟩
      · exact (hmem _).mpr ⟨hy, .inr (.inr rfl)⟩
    have heq : lf.toFinset = {"day", "month", "year"} :=
      Finset.Subset.antisymm hsub hsup
    rw [← hcard, heq, hcards]

/-- C3 (amended): when every associated column of the popped group is present
in the frame (the discarded `date_df = df[assoc_fields]` selection of line 296
raises `KeyError` otherwise), the step succeeds, and the assembled synthetic
column is epoch-converted iff the group's date types include all three of day,
month and year; when they do not, the assembled value stays a formatted
month/day/year string, and it is appended to the features list provided a
`timestamp` column already exists (so the synthetic column receives a
generated name distinct from `"timestamp"`) and the group does not jointly
qualify another column.  (When no `timestamp` column exists the un-converted
string becomes the `timestamp` column itself and is not kept as a feature —
see the counterexample.) -/
theorem C3_secondary_date_groups (parse : String → String → Option Int)
    (st : NormSt) (name : String) (ann : Ann)
    (hsel : ((ann.associated_columns.map (·.2) ++ [name]).all
      (fun k => st.df.hasCol k)) = true) :
    ((other_date_group_step parse st (name, ann)).map (·.df) =
      .ok
      (let assoc0 := ann.associated_columns.map (·.2)
       let acd := (assoc0.filterMap (fun f =>
         (dictGet st.other_dgm f).map (fun a => (f, a)))) ++ [(name, ann)]
       let ncn := if !st.df.hasCol "timestamp" then "timestamp"
         else generate_column_name (assoc0 ++ [name])
       let dfA := generate_timestamp_column st.df acd ncn
       let dts := acd.map (·.2.date_type)
       if "day" ∈ dts ∧ "month" ∈ dts ∧ "year" ∈ dts then
         dfA.mapCol ncn (formatTimeCell parse (generate_timestamp_format acd))
       else dfA)) ∧
    (st.df.hasCol "timestamp" = true →
      generate_column_name (ann.associated_columns.map (·.2) ++ [name]) ≠
        "timestamp" →
      build_date_qualifies_field st.qcd
        (ann.associated_columns.map (·.2) ++ [name]) = none →
      (other_date_group_step parse st (name, ann)).map (·.features) =
        .ok (st.features ++
          [generate_column_name (ann.associated_columns.map (·.2) ++ [name])])) := by
  have hok : st.df.selectE (ann.associated_columns.map (·.2) ++ [name]) =
      .ok { header := (ann.associated_columns.map (·.2) ++ [name]).flatMap
              (fun k => st.df.header.filter (fun h => h = k)),
            rows := st.df.rows.map (fun r =>
              (ann.associated_columns.map (·.2) ++ [name]).flatMap (fun k =>
                (labelIdxs k st.df.header).map (fun i => r.getD i none))) } := by
    unfold Table.selectE
    rw [if_pos hsel]
  constructor
  · unfold other_date_group_step
    dsimp only
    rw [hok]
    cases hts2 : st.df.hasCol "timestamp" with
    | false =>
      simp only [hts2, Bool.not_false, eq_self_iff_true, if_true]
      rw [if_neg (fun h => h rfl)]
      dsimp only [Except.map]
      rw [if_congr (mdy_count_iff _) rfl rfl]
    | true =>
      simp only [hts2, Bool.not_true, Bool.false_eq_true, if_false]
      by_cases hgen2 : generate_column_name
          (ann.associated_columns.map (·.2) ++ [name]) ≠ "timestamp"
      · rw [if_pos hgen2]
        cases hbq : build_date_qualifies_field st.qcd
            (ann.associated_columns.map (·.2) ++ [name]) with
        | none =>
          dsimp only [Except.map]
          rw [if_congr (mdy_count_iff _) rfl rfl]
        | some q =>
          dsimp only [Except.map]
          rw [if_congr (mdy_count_iff _) rfl rfl]
      · rw [if_neg hgen2]
        dsimp only [Except.map]
        rw [if_congr (mdy_count_iff _) rfl rfl]
  · intro hts hgen hq
    unfold other_date_group_step
    dsimp only
    rw [hok]
    dsimp only
    simp only [hts, Bool.not_true, Bool.false_eq_true, if_false]
    rw [if_pos hgen, hq]
    dsimp only [Except.map]

/-- Inputs for the C3 counterexample: a day/month group (no year), no
`timestamp` column yet. -/
def annC3d : Ann := { name := "d", date_type := "day", time_format := "%d" }

def annC3m : Ann :=
  { name := "m", date_type := "month", time_format := "%m",
    associated_columns := [("day", "d")] }

def stC3 : NormSt :=
  { df := { header := ["d", "m"], rows := [[some (.int 5), some (.int 6)]] },
    features := [], primary_dgm := [], other_dgm := [("d", annC3d)],
    qcd := [], renamed := [] }

/-- C3 counterexample: a two-of-three (day+month) group processed when no
`timestamp` column exists is left as the date string `"6/5/01"` (not
epoch-normalized, as the claim says) but lands in the `timestamp` column and
is *not* kept as a feature — the features list stays empty, contradicting the
claim's "kept as a feature". -/
theorem C3_secondary_date_groups_counterexample :
    ((((annC3m.associated_columns.map (·.2)).filterMap (fun f =>
        (dictGet stC3.other_dgm f).map (fun a => (f, a)))) ++ [("m", annC3m)]).map
        (·.2.date_type)) = ["day", "month"] ∧
    (other_date_group_step (fun _ _ => none) stC3 ("m", annC3m)).map
      (·.features) = .ok [] ∧
    (other_date_group_step (fun _ _ => none) stC3 ("m", annC3m)).map
      (fun st' => st'.df.cellAt (st'.df.rows.getD 0 []) "timestamp") =
      .ok (some (.str "6/5/01")) := by decide

/-- The C3 witness state: the same day/month group, processed while a
`timestamp` column already exists. -/
def stC3w : NormSt :=
  { df := { header := ["timestamp", "d", "m"],
            rows := [[some (.int 0), some (.int 5), some (.int 6)]] },
    features := [], primary_dgm := [], other_dgm := [("d", annC3d)],
    qcd := [], renamed := [] }

/-- Witness for the amended C3: a day+month group processed while a
`timestamp` column already exists assembles (its value left a date string)
and is appended to the features under its generated name. -/
theorem C3_secondary_date_groups_witness :
    ((other_date_group_step (fun _ _ => none) stC3w ("m", annC3m)).map (·.df) =
      .ok
      (let assoc0 := annC3m.associated_columns.map (·.2)
       let acd := (assoc0.filterMap (fun f =>
         (dictGet stC3w.other_dgm f).map (fun a => (f, a)))) ++ [("m", annC3m)]
       let ncn := if !stC3w.df.hasCol "timestamp" then "timestamp"
         else generate_column_name (assoc0 ++ ["m"])
       let dfA := generate_timestamp_column stC3w.df acd ncn
       let dts := acd.map (·.2.date_type)
       if "day" ∈ dts ∧ "month" ∈ dts ∧ "year" ∈ dts then
         dfA.mapCol ncn (formatTimeCell (fun _ _ => none)
           (generate_timestamp_format acd))
       else dfA)) ∧
    (stC3w.df.hasCol "timestamp" = true →
      generate_column_name (annC3m.associated_columns.map (·.2) ++ ["m"]) ≠
        "timestamp" →
      build_date_qualifies_field stC3w.qcd
        (annC3m.associated_columns.map (·.2) ++ ["m"]) = none →
      (other_date_group_step (fun _ _ => none) stC3w ("m", annC3m)).map
        (·.features) =
        .ok (stC3w.features ++
          [generate_column_name (annC3m.associated_columns.map (·.2) ++ ["m"])])) :=
  C3_secondary_date_groups (fun _ _ => none) stC3w "m" annC3m (by decide)

/-! ## Claim C6 — primary `coordinates` geo annotations -/

def mapperC6 : Mapper :=
  { geo := [{ name := "latlon", geo_type := "coordinates",
              coord_format := "lonlat", primary_geo := some true }],
    date := [],
    feature := [{ name := "rain" }] }

def dfC6 : Table :=
  { header := ["latlon", "rain"]
    rows := [[some (.str "10,20"), some (.int 7)]] }

def oraclesC6 : Oracles :=
  { parse := fun _ _ => none, score := fun _ _ => 0,
    isoLookup := fun _ => none,
    geo := { adminCols := [], sjoin := fun _ _ => none },
    gadmNames := { header := [], rows := [] } }

/-- C6: a primary geo annotation with `geo_type = "coordinates"` never splits
the combined column — `df[kk].values` is a numpy ndarray and the code calls
`.split(",")` on it, so `normalizer` raises `AttributeError` for every such
input instead of producing `lng`/`lat` columns. -/
theorem C6_coordinates_code_bug :
    normalizer oraclesC6 dfC6 mapperC6 "admin2" { header := [], rows := [] } =
      .error "AttributeError: 'numpy.ndarray' object has no attribute 'split'" := by
  decide

/-! ## Claim C1 — pivot cardinality -/

theorem listIdx?_eq_none_iff (c : String) :
    ∀ l : List String, listIdx? c l = none ↔ c ∉ l := by
  intro l
  induction l with
  | nil => simp [listIdx?]
  | cons h t ih =>
    rw [listIdx?]
    by_cases hh : h = c
    · simp [hh]
    · rw [if_neg hh, Option.map_eq_none', ih]
      simp only [List.mem_cons, not_or]
      exact ⟨fun h2 => ⟨fun he => hh he.symm, h2⟩, fun h2 => h2.2⟩

theorem listIdx?_append_of_mem (c : String) :
    ∀ l₁ l₂ : List String, c ∈ l₁ → listIdx? c (l₁ ++ l₂) = listIdx? c l₁ := by
  intro l₁
  induction l₁ with
  | nil => intro l₂ h; cases h
  | cons a l ih =>
    intro l₂ hc
    rw [List.cons_append, listIdx?, listIdx?]
    by_cases ha : a = c
    · rw [if_pos ha, if_pos ha]
    · rw [if_neg ha, if_neg ha]
      have : c ∈ l := by
        rcases List.mem_cons.mp hc with h' | h'
        · exact absurd h'.symm ha
        · exact h'
      rw [ih _ this]

theorem listIdx?_append_of_not_mem (c : String) :
    ∀ l₁ l₂ : List String, c ∉ l₁ →
      listIdx? c (l₁ ++ l₂) = (listIdx? c l₂).map (· + l₁.length) := by
  intro l₁
  induction l₁ with
  | nil => intro l₂ _; simp
  | cons a l ih =>
    intro l₂ hc
    rw [List.cons_append, listIdx?]
    have ha : ¬ a = c := fun h => hc (h ▸ List.mem_cons_self a l)
    rw [if_neg ha, ih _ (fun h => hc (List.mem_cons_of_mem a h))]
    cases listIdx? c l₂ with
    | none => rfl
    | some i =>
      simp only [Option.map_some', List.length_cons]
      congr 1

/-- Reading a label `c` out of a row built positionally from the header. -/
theorem cellAt_of_map (rs : List (List Cell)) (f : String → Cell) (c : String) :
    ∀ hdr : List String, c ∈ hdr →
      Table.cellAt ⟨hdr, rs⟩ (hdr.map f) c = f c := by
  intro hdr
  induction hdr with
  | nil => intro hc; cases hc
  | cons h t ih =>
    intro hc
    unfold Table.cellAt Table.colIdx
    dsimp only
    rw [listIdx?]
    by_cases hh : h = c
    · subst hh
      simp
    · rw [if_neg hh]
      have hct : c ∈ t := by
        rcases List.mem_cons.mp hc with h' | h'
        · exact absurd h'.symm hh
        · exact h'
      have iht := ih hct
      unfold Table.cellAt Table.colIdx at iht
      dsimp only at iht
      cases hidx : listIdx? c t with
      | none =>
        rw [hidx] at iht
        simpa using iht
      | some i =>
        rw [hidx] at iht
        simpa using iht

/-- Appending a null cell on the right never changes a positional read. -/
theorem getD_append_none (r : List Cell) (i : Nat) :
    (r ++ [none]).getD i none = r.getD i none := by
  by_cases h : i < r.length
  · exact List.getD_append _ _ _ _ h
  · rw [List.getD_append_right _ _ _ _ (Nat.le_of_not_lt h),
      List.getD_eq_default _ _ (Nat.le_of_not_lt h)]
    rcases Nat.lt_or_ge (i - r.length) 1 with h1 | h1
    · have h2 : i - r.length = 0 := by omega
      rw [h2]
      rfl
    · exact List.getD_eq_default _ _ (by simpa using h1)

theorem append_header_mem (t u : Table) (c : String) (hc : c ∈ t.header) :
    c ∈ (t.append u).header := by
  unfold Table.append
  split
  · exact hc
  · exact List.mem_append.mpr (.inl hc)

/-- Reading a column present in the left table distributes over `append`. -/
theorem append_value_cells (t u : Table) (c : String) (hc : c ∈ t.header) :
    (t.append u).rows.map (fun r => (t.append u).cellAt r c) =
      t.rows.map (fun r => t.cellAt r c) ++
        u.rows.map (fun r => u.cellAt r c) := by
  unfold Table.append
  split
  · next hdr_eq =>
    dsimp only
    rw [List.map_append]
    congr 1
    refine List.map_congr_left (fun r _ => ?_)
    unfold Table.cellAt Table.colIdx
    dsimp only
    rw [hdr_eq]
  · next hne =>
    dsimp only
    rw [List.map_append, List.map_map, List.map_map]
    congr 1
    · refine List.map_congr_left (fun r _ => ?_)
      exact cellAt_of_map _ _ _ _ (List.mem_append.mpr (.inl hc))
    · refine List.map_congr_left (fun r _ => ?_)
      exact cellAt_of_map _ _ _ _ (List.mem_append.mpr (.inl hc))

theorem pivotFill_cons (c : String) (co : List String) (t : Table) :
    pivotFill (c :: co) t =
      pivotFill co (if t.hasCol c then t else t.assign c (fun _ => none)) := by
  unfold pivotFill
  rw [List.foldl_cons]

theorem pivotFill_header_mono (x : String) :
    ∀ (l : List String) (s : Table), x ∈ s.header →
      x ∈ (pivotFill l s).header := by
  intro l
  induction l with
  | nil => intro s hs; exact hs
  | cons d l ihl =>
    intro s hs
    rw [pivotFill_cons]
    by_cases hd : s.hasCol d = true
    · rw [if_pos hd]
      exact ihl s hs
    · rw [if_neg hd]
      apply ihl
      unfold Table.assign Table.colIdx
      rw [(listIdx?_eq_none_iff d s.header).mpr (by simpa [Table.hasCol] using hd)]
      exact List.mem_append.mpr (.inl hs)

/-- The fill loop preserves the `value` column and the row count, and makes
every listed column present. -/
theorem pivotFill_spec (co : List String) :
    ∀ t : Table, "value" ∈ t.header →
      ((pivotFill co t).rows.map (fun r => (pivotFill co t).cellAt r "value") =
        t.rows.map (fun r => t.cellAt r "value")) ∧
      "value" ∈ (pivotFill co t).header ∧
      (pivotFill co t).rows.length = t.rows.length ∧
      ∀ c ∈ co, (pivotFill co t).hasCol c = true := by
  induction co with
  | nil =>
    intro t hv
    exact ⟨rfl, hv, rfl, by simp⟩
  | cons c co ih =>
    intro t hv
    rw [pivotFill_cons]
    by_cases hc : t.hasCol c = true
    · rw [if_pos hc]
      obtain ⟨h1, h2, h3, h4⟩ := ih t hv
      refine ⟨h1, h2, h3, ?_⟩
      intro x hx
      rcases List.mem_cons.mp hx with hxc | hx'
      · subst hxc
        have := pivotFill_header_mono x co t (by simpa [Table.hasCol] using hc)
        simpa [Table.hasCol] using this
      · exact h4 x hx'
    · rw [if_neg hc]
      have hcnot : c ∉ t.header := by simpa [Table.hasCol] using hc
      have hassign : t.assign c (fun _ => none) =
          ⟨t.header ++ [c], t.rows.map (fun r => r ++ [none])⟩ := by
        unfold Table.assign Table.colIdx
        rw [(listIdx?_eq_none_iff c t.header).mpr hcnot]
      rw [hassign]
      have hv' : "value" ∈ (t.header ++ [c]) := List.mem_append.mpr (.inl hv)
      obtain ⟨h1, h2, h3, h4⟩ :=
        ih ⟨t.header ++ [c], t.rows.map (fun r => r ++ [none])⟩ hv'
      refine ⟨?_, h2, by simpa using h3, ?_⟩
      · rw [h1, List.map_map]
        refine List.map_congr_left (fun r _ => ?_)
        unfold Table.cellAt Table.colIdx
        dsimp only
        rw [listIdx?_append_of_mem _ _ _ hv]
        cases listIdx? "value" t.header with
        | none => rfl
        | some i => exact getD_append_none r i
      · intro x hx
        rcases List.mem_cons.mp hx with hxc | hx'
        · subst hxc
          have := pivotFill_header_mono x co
            ⟨t.header ++ [x], t.rows.map (fun r => r ++ [none])⟩
            (List.mem_append.mpr (.inr (List.mem_singleton_self x)))
          simpa [Table.hasCol] using this
        · exact h4 x hx'

theorem exceptBind_ok {α β : Type} (a : α) (k : α → Except String β) :
    (Except.ok a >>= k : Except String β) = k a := rfl

theorem labelIdxs_length (c : String) :
    ∀ hdr : List String,
      (labelIdxs c hdr).length = (hdr.filter (fun h => h = c)).length := by
  intro hdr
  induction hdr with
  | nil => rfl
  | cons h t ih =>
    rw [labelIdxs, List.filter_cons]
    by_cases hh : h = c
    · rw [if_pos hh, if_pos (by simpa using hh)]
      simp only [List.length_cons, List.length_map]
      rw [ih]
    · rw [if_neg hh, if_neg (by simpa using hh)]
      rw [List.length_map, ih]

/-- The first match is the head of the full match list. -/
theorem labelIdxs_head (c : String) :
    ∀ hdr : List String, listIdx? c hdr = (labelIdxs c hdr).head? := by
  intro hdr
  induction hdr with
  | nil => rfl
  | cons h t ih =>
    rw [listIdx?, labelIdxs]
    by_cases hh : h = c
    · rw [if_pos hh, if_pos hh]
      rfl
    · rw [if_neg hh, if_neg hh, ih, List.head?_map]

theorem mem_flatMap_filter (x : String) (hdr : List String)
    (keys : List String)
    (hx : x ∈ keys.flatMap (fun k => hdr.filter (fun h => h = k))) :
    x ∈ keys := by
  obtain ⟨k, hk, hxk⟩ := List.mem_flatMap.mp hx
  have hxe : x = k := by simpa using (List.mem_filter.mp hxk).2
  rw [hxe]
  exact hk

theorem filter_eq_replicate (c : String) :
    ∀ hdr : List String, hdr.filter (fun h => h = c) =
      List.replicate (hdr.filter (fun h => h = c)).length c := by
  intro hdr
  induction hdr with
  | nil => rfl
  | cons h t ih =>
    rw [List.filter_cons]
    by_cases hh : h = c
    · rw [if_pos (by simpa using hh)]
      rw [List.length_cons, List.replicate_succ]
      exact congrArg₂ (· :: ·) hh ih
    · rw [if_neg (by simpa using hh)]
      exact ih

theorem filter_len_pos_of_mem (c : String) (hdr : List String)
    (hc : c ∈ hdr) : 0 < (hdr.filter (fun h => h = c)).length := by
  have hmem : c ∈ hdr.filter (fun h => h = c) :=
    List.mem_filter.mpr ⟨hc, by simp⟩
  exact List.length_pos.mpr (List.ne_nil_of_mem hmem)

/-- The cells a select assembles for a key list are as long as the labels it
selects. -/
theorem flatMap_blocks_length (hdr : List String) (r : List Cell) :
    ∀ keys : List String,
      (keys.flatMap (fun k =>
        (labelIdxs k hdr).map (fun i => r.getD i none))).length =
      (keys.flatMap (fun k => hdr.filter (fun h => h = k))).length := by
  intro keys
  induction keys with
  | nil => rfl
  | cons k ks ih =>
    rw [List.flatMap_cons, List.flatMap_cons, List.length_append,
      List.length_append, List.length_map, labelIdxs_length, ih]

theorem cellAt_eq_getD (hdr : List String) (rs : List (List Cell))
    (r : List Cell) (c : String) (i : Nat) (h : listIdx? c hdr = some i) :
    Table.cellAt ⟨hdr, rs⟩ r c = r.getD i none := by
  unfold Table.cellAt Table.colIdx
  dsimp only
  rw [h]

theorem cellAt_eq_none (hdr : List String) (rs : List (List Cell))
    (r : List Cell) (c : String) (h : listIdx? c hdr = none) :
    Table.cellAt ⟨hdr, rs⟩ r c = none := by
  unfold Table.cellAt Table.colIdx
  dsimp only
  rw [h]

theorem listIdx?_lt_length (c : String) :
    ∀ (l : List String) (i : Nat), listIdx? c l = some i → i < l.length := by
  intro l
  induction l with
  | nil => intro i h; exact Option.noConfusion h
  | cons h t ih =>
    intro i hi
    rw [listIdx?] at hi
    by_cases hh : h = c
    · rw [if_pos hh] at hi
      injection hi with hi
      rw [← hi]
      simp
    · rw [if_neg hh] at hi
      cases hres : listIdx? c t with
      | none => rw [hres] at hi; exact Option.noConfusion hi
      | some j =>
        rw [hres] at hi
        injection hi with hi
        rw [← hi]
        have := ih j hres
        simp only [List.length_cons]
        omega

theorem listIdx?_map_of_inj (f : String → String) (o : String) :
    ∀ hdr : List String, (∀ h ∈ hdr, (f h = f o ↔ h = o)) →
      listIdx? (f o) (hdr.map f) = listIdx? o hdr := by
  intro hdr
  induction hdr with
  | nil => intro _; rfl
  | cons h t ih =>
    intro hinj
    rw [List.map_cons, listIdx?, listIdx?]
    have hht := hinj h (List.mem_cons_self h t)
    by_cases he : h = o
    · rw [if_pos (hht.mpr he), if_pos he]
    · rw [if_neg (fun hfe => he (hht.mp hfe)), if_neg he,
        ih (fun d hd => hinj d (List.mem_cons_of_mem h hd))]

/-- Reading label `c` from a select-assembled row equals the source frame's
first-match read of `c`: the first cell of the first `c`-keyed block is the
source's first `c` column. -/
theorem select_read_first (hdr : List String) (rs : List (List Cell))
    (r : List Cell) (c : String) (hcol : c ∈ hdr) :
    ∀ keys : List String, c ∈ keys →
      Table.cellAt
        ⟨keys.flatMap (fun k => hdr.filter (fun h => h = k)), rs⟩
        (keys.flatMap (fun k =>
          (labelIdxs k hdr).map (fun i => r.getD i none))) c =
      Table.cellAt ⟨hdr, rs⟩ r c := by
  intro keys
  induction keys with
  | nil => intro hc; cases hc
  | cons k ks ih =>
    intro hc
    rw [List.flatMap_cons, List.flatMap_cons]
    by_cases hk : k = c
    · subst hk
      have hm := filter_len_pos_of_mem k hdr hcol
      obtain ⟨n, hn⟩ : ∃ n, (hdr.filter (fun h => h = k)).length = n + 1 :=
        ⟨(hdr.filter (fun h => h = k)).length - 1, by omega⟩
      obtain ⟨i0, is, his⟩ : ∃ i0 is, labelIdxs k hdr = i0 :: is := by
        have hlen := labelIdxs_length k hdr
        rw [hn] at hlen
        cases hli : labelIdxs k hdr with
        | nil => rw [hli] at hlen; simp at hlen
        | cons a b => exact ⟨a, b, rfl⟩
      have hfirst : listIdx? k hdr = some i0 := by
        rw [labelIdxs_head, his]
        rfl
      have hrepl := filter_eq_replicate k hdr
      rw [hn] at hrepl
      have hL : listIdx? k ((hdr.filter (fun h => h = k)) ++
          ks.flatMap (fun k => hdr.filter (fun h => h = k))) = some 0 := by
        rw [hrepl, List.replicate_succ, List.cons_append, listIdx?, if_pos rfl]
      rw [cellAt_eq_getD _ _ _ _ _ hL, cellAt_eq_getD _ _ _ _ _ hfirst, his]
      simp
    · have hnotin : c ∉ hdr.filter (fun h => h = k) := by
        intro hmem
        exact hk ((by simpa using (List.mem_filter.mp hmem).2 : c = k)).symm
      have hc2 : c ∈ ks := by
        rcases List.mem_cons.mp hc with h | h
        · exact absurd h.symm hk
        · exact h
      have iht := ih hc2
      cases hres : listIdx? c
          (ks.flatMap (fun k => hdr.filter (fun h => h = k))) with
      | none =>
        have hnone : listIdx? c ((hdr.filter (fun h => h = k)) ++
            ks.flatMap (fun k => hdr.filter (fun h => h = k))) = none := by
          rw [listIdx?_append_of_not_mem _ _ _ hnotin, hres]
          rfl
        rw [cellAt_eq_none _ _ _ _ hnone]
        rw [cellAt_eq_none _ _ _ _ hres] at iht
        exact iht
      | some i =>
        have hsome : listIdx? c ((hdr.filter (fun h => h = k)) ++
            ks.flatMap (fun k => hdr.filter (fun h => h = k))) =
            some (i + (hdr.filter (fun h => h = k)).length) := by
          rw [listIdx?_append_of_not_mem _ _ _ hnotin, hres]
          rfl
        rw [cellAt_eq_getD _ _ _ _ _ hsome]
        rw [cellAt_eq_getD _ _ _ _ _ hres] at iht
        have hlen : ((labelIdxs k hdr).map (fun i => r.getD i none)).length =
            (hdr.filter (fun h => h = k)).length := by
          rw [List.length_map, labelIdxs_length]
        rw [List.getD_append_right _ _ _ _ (by rw [hlen]; omega)]
        have hidx : i + (hdr.filter (fun h => h = k)).length -
            ((labelIdxs k hdr).map (fun i => r.getD i none)).length = i := by
          rw [hlen]
          omega
        rw [hidx]
        exact iht

/-- Under the well-formedness side conditions, one feature's long-format
frame is the explicit table selecting the protected/qualifier labels and the
value source (every matching column of each), the constant feature label
appended, and the value source relabelled `value`. -/
theorem pivotFeatureFrame_eq (df : Table) (u : List String) (feat : String)
    (hsel : ((u ++ [pivotValueCol df u feat]).all df.hasCol) = true)
    (_hvu : pivotValueCol df u feat ∉ u)
    (hfu : "feature" ∉ u)
    (hfv : ¬ pivotValueCol df u feat = "feature") :
    pivotFeatureFrame df u feat = .ok
      { header := (((u ++ [pivotValueCol df u feat]).flatMap (fun k =>
            df.header.filter (fun h => h = k))) ++ ["feature"]).map
          (fun h => if h = pivotValueCol df u feat then "value" else h),
        rows := df.rows.map (fun r =>
          ((u ++ [pivotValueCol df u feat]).flatMap (fun k =>
            (labelIdxs k df.header).map (fun i => r.getD i none))) ++
            [some (.str feat)]) } := by
  have hselect : df.selectE (u ++ [pivotValueCol df u feat]) = .ok
      { header := (u ++ [pivotValueCol df u feat]).flatMap (fun k =>
          df.header.filter (fun h => h = k)),
        rows := df.rows.map (fun r =>
          (u ++ [pivotValueCol df u feat]).flatMap (fun k =>
            (labelIdxs k df.header).map (fun i => r.getD i none))) } := by
    unfold Table.selectE
    rw [if_pos hsel]
  unfold pivotFeatureFrame
  dsimp only
  rw [hselect]
  have hfnot : "feature" ∉ (u ++ [pivotValueCol df u feat]).flatMap (fun k =>
      df.header.filter (fun h => h = k)) := by
    intro h
    rcases List.mem_append.mp (mem_flatMap_filter _ _ _ h) with h' | h'
    · exact hfu h'
    · exact hfv (List.mem_singleton.mp h').symm
  unfold Table.assign Table.colIdx
  dsimp only
  rw [(listIdx?_eq_none_iff _ _).mpr hfnot]
  unfold Table.rename
  dsimp only
  congr 1
  rw [List.map_map]
  rfl

def pivotBlock (df : Table) (protected_cols : List String)
    (qcd : List (String × List String)) (feat : String) : List Cell :=
  df.rows.map (fun r =>
    df.cellAt r (pivotValueCol df (pivotUsingCols protected_cols qcd feat) feat))

/-- The number of assembled (feature, row) entries whose `value` is null —
exactly the rows the final `dropna` removes. -/
def pivot_null_count (df : Table) (protected_cols : List String)
    (qcd : List (String × List String)) (features : List String) : Nat :=
  (((features.map (pivotBlock df protected_cols qcd)).flatten).filter
    (fun c => c.isNone)).length

/-- Schema sanity for one pivoted feature: its carried columns and value
source exist in the frame and do not shadow the reserved `value`/`feature`
slots. -/
def pivotColsOK (df : Table) (P : List String)
    (qcd : List (String × List String)) (f : String) : Prop :=
  ((pivotUsingCols P qcd f ++ [pivotValueCol df (pivotUsingCols P qcd f) f]).all
    df.hasCol = true) ∧
  pivotValueCol df (pivotUsingCols P qcd f) f ∉ pivotUsingCols P qcd f ∧
  "feature" ∉ pivotUsingCols P qcd f ∧
  ¬ pivotValueCol df (pivotUsingCols P qcd f) f = "feature" ∧
  "value" ∉ pivotUsingCols P qcd f

instance (df : Table) (P : List String) (qcd : List (String × List String))
    (f : String) : Decidable (pivotColsOK df P qcd f) := by
  unfold pivotColsOK
  infer_instance

/-- Reading `value` out of one feature's assembled frame row recovers the
source frame's first-match read of the value column. -/
theorem frame_value_cells (df : Table) (u : List String) (v feat : String)
    (hvu : v ∉ u) (hvu2 : "value" ∉ u) (hvcol : v ∈ df.header)
    (rs : List (List Cell)) (r : List Cell) :
    Table.cellAt
      ⟨(((u ++ [v]).flatMap (fun k => df.header.filter (fun h => h = k))) ++
          ["feature"]).map (fun h => if h = v then "value" else h), rs⟩
      (((u ++ [v]).flatMap (fun k =>
        (labelIdxs k df.header).map (fun i => r.getD i none))) ++
        [some (.str feat)]) "value" = df.cellAt r v := by
  have hvSel : v ∈ (u ++ [v]).flatMap (fun k =>
      df.header.filter (fun h => h = k)) :=
    List.mem_flatMap.mpr ⟨v, List.mem_append.mpr (.inr (List.mem_singleton_self v)),
      List.mem_filter.mpr ⟨hvcol, by simp⟩⟩
  have hinj : ∀ h ∈ (u ++ [v]).flatMap (fun k =>
      df.header.filter (fun h => h = k)),
      ((if h = v then "value" else h) = (if v = v then "value" else v) ↔
        h = v) := by
    intro h hmem
    rw [if_pos rfl]
    rcases List.mem_append.mp (mem_flatMap_filter _ _ _ hmem) with hu | hv'
    · have hne : ¬ h = v := fun he => hvu (he ▸ hu)
      rw [if_neg hne]
      constructor
      · intro he
        exact absurd (he ▸ hu) hvu2
      · intro he
        exact absurd he hne
    · have hhv : h = v := List.mem_singleton.mp hv'
      rw [if_pos hhv]
      exact ⟨fun _ => hhv, fun _ => rfl⟩
  have h1 : listIdx? (if v = v then "value" else v)
      (((u ++ [v]).flatMap (fun k => df.header.filter (fun h => h = k))).map
        (fun h => if h = v then "value" else h)) =
      listIdx? v ((u ++ [v]).flatMap (fun k =>
        df.header.filter (fun h => h = k))) :=
    listIdx?_map_of_inj (fun h => if h = v then "value" else h) v
      ((u ++ [v]).flatMap (fun k => df.header.filter (fun h => h = k))) hinj
  rw [if_pos rfl] at h1
  obtain ⟨i, hi⟩ : ∃ i, listIdx? v ((u ++ [v]).flatMap (fun k =>
      df.header.filter (fun h => h = k))) = some i := by
    cases hres : listIdx? v ((u ++ [v]).flatMap (fun k =>
        df.header.filter (fun h => h = k))) with
    | none => exact absurd hvSel ((listIdx?_eq_none_iff _ _).mp hres)
    | some i => exact ⟨i, rfl⟩
  have hib := listIdx?_lt_length v _ i hi
  have hL : listIdx? "value"
      ((((u ++ [v]).flatMap (fun k => df.header.filter (fun h => h = k))) ++
        ["feature"]).map (fun h => if h = v then "value" else h)) = some i := by
    rw [List.map_append, listIdx?_append_of_mem, h1, hi]
    refine List.mem_map.mpr ⟨v, hvSel, ?_⟩
    exact if_pos rfl
  rw [cellAt_eq_getD _ _ _ _ _ hL]
  have hlen := flatMap_blocks_length df.header r (u ++ [v])
  rw [List.getD_append _ _ _ _ (by rw [hlen]; exact hib)]
  have hsl := select_read_first df.header rs r v hvcol (u ++ [v])
    (List.mem_append.mpr (.inr (List.mem_singleton_self v)))
  rw [cellAt_eq_getD _ _ _ _ _ hi] at hsl
  rw [hsl]
  rfl

theorem foldl_dedup_append (ql : List String) :
    ∀ co : List String, ∃ e0,
      ql.foldl (fun co c => if co.contains c then co else co ++ [c]) co =
        co ++ e0 := by
  induction ql with
  | nil => exact fun co => ⟨[], by simp⟩
  | cons q ql ihq =>
    intro co
    rw [List.foldl_cons]
    by_cases hq : co.contains q = true
    · rw [if_pos hq]
      exact ihq co
    · rw [if_neg hq]
      obtain ⟨e1, he1⟩ := ihq (co ++ [q])
      exact ⟨[q] ++ e1, by rw [he1, List.append_assoc]⟩

/-- The pivot fold never fails under the side conditions, and the `value`
column of its result is the concatenation, feature block by feature block, of
each feature's source cells. -/
theorem pivot_fold_spec (df : Table) (P : List String)
    (qcd : List (String × List String)) :
    ∀ (fs : List String) (T : Table) (co : List String),
      (∀ f ∈ fs, pivotColsOK df P qcd f) →
      (¬ T.rows = [] → "value" ∈ T.header) →
      ∃ T' co',
        fs.foldlM (pivotStep df P qcd) (T, co) = .ok (T', co') ∧
        T'.rows.map (fun r => T'.cellAt r "value") =
          (T.rows.map (fun r => T.cellAt r "value")) ++
            (fs.map (pivotBlock df P qcd)).flatten ∧
        (("value" ∈ T.header ∨ fs ≠ []) → "value" ∈ T'.header) ∧
        (∃ ext, co' = co ++ ext) := by
  intro fs
  induction fs with
  | nil =>
    intro T co _ _
    refine ⟨T, co, rfl, by simp, ?_, ⟨[], by simp⟩⟩
    rintro (h | h)
    · exact h
    · exact absurd rfl h
  | cons f fs ih =>
    intro T co hwf hTv
    obtain ⟨hsel, hvu, hfu, hfv, hvalu⟩ := hwf f (List.mem_cons_self f fs)
    have hframe := pivotFeatureFrame_eq df (pivotUsingCols P qcd f) f hsel hvu
      hfu hfv
    have hvcol : pivotValueCol df (pivotUsingCols P qcd f) f ∈ df.header := by
      have := List.all_eq_true.mp hsel _
        (List.mem_append.mpr (.inr (List.mem_singleton_self _)))
      simpa [Table.hasCol] using this
    set FRAME : Table :=
      { header := (((pivotUsingCols P qcd f ++
            [pivotValueCol df (pivotUsingCols P qcd f) f]).flatMap (fun k =>
              df.header.filter (fun h => h = k))) ++ ["feature"]).map
          (fun h => if h = pivotValueCol df (pivotUsingCols P qcd f) f
            then "value" else h),
        rows := df.rows.map (fun r =>
          ((pivotUsingCols P qcd f ++
            [pivotValueCol df (pivotUsingCols P qcd f) f]).flatMap (fun k =>
              (labelIdxs k df.header).map (fun i => r.getD i none))) ++
            [some (.str f)]) } with hFRAME
    have hvSel : pivotValueCol df (pivotUsingCols P qcd f) f ∈
        (pivotUsingCols P qcd f ++
          [pivotValueCol df (pivotUsingCols P qcd f) f]).flatMap
          (fun k => df.header.filter (fun h => h = k)) :=
      List.mem_flatMap.mpr ⟨_,
        List.mem_append.mpr (.inr (List.mem_singleton_self _)),
        List.mem_filter.mpr ⟨hvcol, by simp⟩⟩
    have hstep : pivotStep df P qcd (T, co) f = .ok
        (if T.rows.isEmpty then FRAME else T.append FRAME,
          ((dictGet qcd f).getD []).foldl
            (fun co c => if co.contains c then co else co ++ [c]) co) := by
      unfold pivotStep
      dsimp only
      rw [hframe]
    have hFRAMEv : "value" ∈ FRAME.header := by
      rw [hFRAME]
      exact List.mem_map.mpr ⟨_, List.mem_append.mpr (.inl hvSel), if_pos rfl⟩
    have hFRAMEcells : FRAME.rows.map (fun r => FRAME.cellAt r "value") =
        pivotBlock df P qcd f := by
      rw [hFRAME]
      dsimp only
      rw [List.map_map]
      unfold pivotBlock
      refine List.map_congr_left fun r hr => ?_
      exact frame_value_cells df _ _ f hvu hvalu hvcol _ r
    set T1 : Table := if T.rows.isEmpty then FRAME else T.append FRAME with hT1
    have hT1v : "value" ∈ T1.header := by
      rw [hT1]
      split
      · exact hFRAMEv
      · next h =>
        have hTrows : ¬ T.rows = [] := by
          intro hnil
          rw [hnil] at h
          exact h rfl
        exact append_header_mem T FRAME _ (hTv hTrows)
    have hT1cells : T1.rows.map (fun r => T1.cellAt r "value") =
        (T.rows.map (fun r => T.cellAt r "value")) ++ pivotBlock df P qcd f := by
      rw [hT1]
      split
      · next h =>
        have hTrows : T.rows = [] := by
          cases hr : T.rows with
          | nil => rfl
          | cons a l => rw [hr] at h; exact absurd h (by simp)
        rw [hTrows]
        simpa using hFRAMEcells
      · rw [append_value_cells T FRAME "value" (hTv ?_), hFRAMEcells]
        next h =>
        intro hnil
        rw [hnil] at h
        exact h rfl
    obtain ⟨T', co', hfold, hcells, hhdr, ⟨ext, hco⟩⟩ :=
      ih T1 (((dictGet qcd f).getD []).foldl
          (fun co c => if co.contains c then co else co ++ [c]) co)
        (fun g hg => hwf g (List.mem_cons_of_mem f hg))
        (fun _ => hT1v)
    refine ⟨T', co', ?_, ?_, fun _ => hhdr (.inl hT1v), ?_⟩
    · rw [List.foldlM_cons, hstep, exceptBind_ok]
      exact hfold
    · rw [hcells, hT1cells, List.map_cons, List.flatten_cons, List.append_assoc]
    · obtain ⟨e0, he0⟩ := foldl_dedup_append ((dictGet qcd f).getD []) co
      exact ⟨e0 ++ ext, by rw [hco, he0, List.append_assoc]⟩

theorem countP_isSome_add_isNone (l : List Cell) :
    l.countP (fun c => c.isSome) + l.countP (fun c => c.isNone) = l.length := by
  induction l with
  | nil => rfl
  | cons c l ih =>
    cases c <;> simp [List.countP_cons] <;> omega

/-- C1: for a non-empty feature list whose carried columns are well formed,
the pivot stage (lines 533–597, the stage that produces the frame `normalizer`
returns) succeeds, its output has exactly `input rows × features` rows minus
the assembled rows whose `value` cell is null, and every output row carries a
non-null `value`. -/
theorem C1_pivot_cardinality (df : Table) (features P : List String)
    (qcd : List (String × List String)) (co0 : List String)
    (hne : ¬ features = [])
    (hv0 : "value" ∈ co0)
    (hwf : ∀ f ∈ features, pivotColsOK df P qcd f) :
    ∃ out co, feature_pivot df features P qcd co0 = .ok (out, co) ∧
      out.rows.length =
        df.rows.length * features.length -
          pivot_null_count df P qcd features ∧
      ∀ r ∈ out.rows, ¬ out.cellAt r "value" = none := by
  obtain ⟨T', co', hfold, hcells, hhdr, ⟨ext, hco⟩⟩ :=
    pivot_fold_spec df P qcd features ⟨[], []⟩ co0 hwf (fun h => absurd rfl h)
  simp only [List.map_nil, List.nil_append] at hcells
  have hvT' : "value" ∈ T'.header := hhdr (.inr hne)
  obtain ⟨hfc, hfv', hflen, hfall⟩ := pivotFill_spec co' T' hvT'
  set F := pivotFill co' T' with hF
  set p : List Cell → Bool := fun r => (F.cellAt r "value").isSome with hp
  set R := F.rows.filter p with hR
  set Vs := (features.map (pivotBlock df P qcd)).flatten with hVsdef
  have hfne : ¬ features.isEmpty = true := by simpa using hne
  have hall : (co'.all (fun k =>
      Table.hasCol { F with rows := R } k)) = true := by
    rw [List.all_eq_true]
    intro c hc
    exact hfall c hc
  have hselD : Table.selectE { F with rows := R } co' =
      .ok { header := co'.flatMap (fun k =>
              F.header.filter (fun h => h = k)),
            rows := R.map (fun r => co'.flatMap (fun k =>
              (labelIdxs k F.header).map (fun i => r.getD i none))) } := by
    unfold Table.selectE
    rw [if_pos hall]
  have hmain : feature_pivot df features P qcd co0 =
      .ok ({ header := co'.flatMap (fun k =>
               F.header.filter (fun h => h = k)),
             rows := R.map (fun r => co'.flatMap (fun k =>
               (labelIdxs k F.header).map (fun i => r.getD i none))) },
           co') := by
    unfold feature_pivot
    dsimp only
    rw [if_neg hfne, hfold]
    dsimp only
    rw [← hF, ← hp, ← hR, hselD]
  refine ⟨_, co', hmain, ?_, ?_⟩
  · -- cardinality
    have hVs : F.rows.map (fun r => F.cellAt r "value") = Vs := by
      rw [hF, hfc, hcells]
    have e2 : R.length = Vs.countP (fun c => c.isSome) := by
      rw [hR, ← List.countP_eq_length_filter, hp]
      have := List.countP_map (fun c : Cell => c.isSome)
        (fun r => F.cellAt r "value") F.rows
      rw [hVs] at this
      exact this.symm
    have e3 := countP_isSome_add_isNone Vs
    have e4 : Vs.length = df.rows.length * features.length := by
      rw [hVsdef, List.length_flatten, List.map_map]
      have hcomp : (List.length ∘ pivotBlock df P qcd) =
          fun _ => df.rows.length := by
        funext f
        simp [pivotBlock]
      rw [hcomp, List.map_const', List.sum_replicate, smul_eq_mul,
        Nat.mul_comm]
    have e5 : pivot_null_count df P qcd features =
        Vs.countP (fun c => c.isNone) := by
      unfold pivot_null_count
      rw [← hVsdef, ← List.countP_eq_length_filter]
    have e1 : (R.map (fun r => co'.flatMap (fun k =>
        (labelIdxs k F.header).map (fun i => r.getD i none)))).length =
        R.length := by
      rw [List.length_map]
    dsimp only
    omega
  · -- non-null value
    intro r' hr'
    dsimp only at hr'
    obtain ⟨r, hrR, hmap⟩ := List.mem_map.mp hr'
    have hval : "value" ∈ co' := by
      rw [hco]
      exact List.mem_append.mpr (.inl hv0)
    have hread : Table.cellAt
        ⟨co'.flatMap (fun k => F.header.filter (fun h => h = k)),
         R.map (fun r => co'.flatMap (fun k =>
           (labelIdxs k F.header).map (fun i => r.getD i none)))⟩
        r' "value" = Table.cellAt ⟨F.header,
          R.map (fun r => co'.flatMap (fun k =>
            (labelIdxs k F.header).map (fun i => r.getD i none)))⟩
          r "value" := by
      rw [← hmap]
      exact select_read_first F.header _ r "value" hfv' co' hval
    have hsome : (F.cellAt r "value").isSome = true := by
      have := (List.mem_filter.mp (hR ▸ hrR)).2
      simpa [hp] using this
    intro hnone
    rw [hread] at hnone
    have hnone2 : F.cellAt r "value" = none := hnone
    rw [hnone2] at hsome
    simp at hsome

def dfC1 : Table :=
  ⟨["f1", "f2"],
   [[some (.int 1), some (.int 10)], [none, some (.int 20)]]⟩

theorem C1_pivot_cardinality_witness :
    ∃ out co,
      feature_pivot dfC1 ["f1", "f2"] [] [] ["feature", "value"] =
        .ok (out, co) ∧
      out.rows.length =
        dfC1.rows.length * (["f1", "f2"] : List String).length -
          pivot_null_count dfC1 [] [] ["f1", "f2"] ∧
      ∀ r ∈ out.rows, ¬ out.cellAt r "value" = none :=
  C1_pivot_cardinality dfC1 ["f1", "f2"] [] [] ["feature", "value"]
    (by decide) (by decide) (by decide)

/-- The single-pass effect of the collision rename pass on one label. -/
def markOne (cl : List String) (x : String) : String :=
  if cl.contains x then x ++ "_non_primary" else x

/-- The literal fold of the sequential renames over one label. -/
def markFold (cl : List String) (x : String) : String :=
  cl.foldl (fun y col => if y = col then col ++ "_non_primary" else y) x

theorem rename_fold_proj (cl : List String) :
    ∀ (df : Table) (led : List (String × List String)),
      cl.foldl (fun (acc : Table × List (String × List String)) col =>
        (acc.1.rename col (col ++ "_non_primary"),
         dictInsert acc.2 (col ++ "_non_primary") [col])) (df, led) =
      ({ header := cl.foldl (fun h col =>
            h.map (fun x => if x = col then col ++ "_non_primary" else x))
            df.header,
         rows := df.rows },
       cl.foldl (fun l col => dictInsert l (col ++ "_non_primary") [col])
         led) := by
  induction cl with
  | nil => intro df led; rfl
  | cons c cl ih =>
    intro df led
    rw [List.foldl_cons, List.foldl_cons, List.foldl_cons]
    exact ih (df.rename c (c ++ "_non_primary"))
      (dictInsert led (c ++ "_non_primary") [c])

theorem markFold_map (cl : List String) :
    ∀ hdr : List String,
      cl.foldl (fun h col =>
        h.map (fun x => if x = col then col ++ "_non_primary" else x)) hdr =
      hdr.map (markFold cl) := by
  induction cl with
  | nil =>
    intro hdr
    rw [List.foldl_nil]
    exact ((List.map_congr_left fun a _ => rfl).trans (List.map_id hdr)).symm
  | cons c cl ih =>
    intro hdr
    rw [List.foldl_cons, ih, List.map_map]
    rfl

theorem markFold_of_not_mem (cl : List String) :
    ∀ x, (∀ c ∈ cl, ¬ x = c) → markFold cl x = x := by
  induction cl with
  | nil => intro x _; rfl
  | cons c cl ih =>
    intro x hx
    unfold markFold
    rw [List.foldl_cons, if_neg (hx c (List.mem_cons_self c cl))]
    exact ih x (fun d hd => hx d (List.mem_cons_of_mem c hd))

theorem markFold_eq (cl : List String)
    (hcl : ∀ c ∈ cl, strEndsWith c "_non_primary" = false) :
    ∀ x, strEndsWith x "_non_primary" = false →
      markFold cl x = markOne cl x := by
  induction cl with
  | nil => intro x _; rfl
  | cons c cl ih =>
    intro x hx
    have hccl : ∀ d ∈ cl, strEndsWith d "_non_primary" = false :=
      fun d hd => hcl d (List.mem_cons_of_mem c hd)
    by_cases hxc : x = c
    · subst hxc
      have h1 : markFold (x :: cl) x = markFold cl (x ++ "_non_primary") := by
        unfold markFold
        rw [List.foldl_cons, if_pos rfl]
      have h2 : ∀ d ∈ cl, ¬ (x ++ "_non_primary") = d := by
        intro d hd he
        have hds := hccl d hd
        rw [← he, strEndsWith_append] at hds
        exact absurd hds (by simp)
      rw [h1, markFold_of_not_mem cl _ h2]
      unfold markOne
      rw [if_pos (by simp : ((x :: cl).contains x) = true)]
    · have h1 : markFold (c :: cl) x = markFold cl x := by
        unfold markFold
        rw [List.foldl_cons, if_neg hxc]
      rw [h1, ih hccl x hx]
      unfold markOne
      rw [List.contains_cons, beq_eq_false_iff_ne.mpr hxc, Bool.false_or]

theorem markOne_inj (cl : List String)
    (_hcl : ∀ c ∈ cl, strEndsWith c "_non_primary" = false)
    (h o : String) (hh : strEndsWith h "_non_primary" = false)
    (ho : strEndsWith o "_non_primary" = false) :
    markOne cl h = markOne cl o ↔ h = o := by
  unfold markOne
  constructor
  · intro he
    by_cases h1 : cl.contains h = true <;> by_cases h2 : cl.contains o = true
    · rw [if_pos h1, if_pos h2] at he
      have hd := congrArg String.data he
      rw [String.data_append, String.data_append] at hd
      exact String.ext (List.append_cancel_right hd)
    · rw [if_pos h1, if_neg h2] at he
      exfalso
      rw [← he, strEndsWith_append] at ho
      exact absurd ho (by simp)
    · rw [if_neg h1, if_pos h2] at he
      exfalso
      rw [he, strEndsWith_append] at hh
      exact absurd hh (by simp)
    · rwa [if_neg h1, if_neg h2] at he
  · intro he
    rw [he]

theorem collisionList_sub (m : Mapper) (P : List String) :
    ∀ c ∈ collisionList m P, c ∈ mapperNames m := by
  intro c hc
  unfold collisionList at hc
  dsimp only at hc
  unfold mapperNames
  rcases List.mem_append.mp hc with hc1 | hc1
  · rcases List.mem_append.mp hc1 with h1 | h1
    · obtain ⟨a, ha, rfl⟩ := List.mem_map.mp h1
      exact List.mem_map.mpr ⟨a, List.mem_append.mpr (.inl (List.mem_append.mpr
        (.inl (List.mem_filter.mp ha).1))), rfl⟩
    · obtain ⟨a, ha, rfl⟩ := List.mem_map.mp h1
      exact List.mem_map.mpr ⟨a, List.mem_append.mpr (.inl (List.mem_append.mpr
        (.inr (List.mem_filter.mp ha).1))), rfl⟩
  · obtain ⟨a, ha, rfl⟩ := List.mem_map.mp hc1
    exact List.mem_map.mpr ⟨a,
      List.mem_append.mpr (.inr (List.mem_filter.mp ha).1), rfl⟩

/-- The collision pass only relabels the header (by the fold of the single
renames); the data rows are untouched. -/
theorem handle_colname_collisions_table (df : Table) (m : Mapper)
    (P : List String) :
    (handle_colname_collisions df m P).1 =
      { header := df.header.map (markFold (collisionList m P)),
        rows := df.rows } := by
  unfold handle_colname_collisions
  dsimp only
  by_cases h : collisionList m P = []
  · rw [if_pos h, h]
    have hid : df.header.map (markFold []) = df.header :=
      (List.map_congr_left fun a _ => rfl).trans (List.map_id _)
    rw [hid]
  · rw [if_neg h]
    dsimp only
    rw [rename_fold_proj]
    dsimp only
    rw [markFold_map]

/-- The resolved mapper and the ledger do not depend on the frame at all. -/
theorem handle_colname_collisions_rest (df₁ df₂ : Table) (m : Mapper)
    (P : List String) :
    (handle_colname_collisions df₁ m P).2 =
      (handle_colname_collisions df₂ m P).2 := by
  unfold handle_colname_collisions
  dsimp only
  by_cases h : collisionList m P = []
  · rw [if_pos h, if_pos h]
  · rw [if_neg h, if_neg h]
    dsimp only
    rw [rename_fold_proj, rename_fold_proj]

/-- The schema names after collision resolution are the original names with
the one-pass mark applied. -/
theorem mapperNames_hcc (df : Table) (m : Mapper) (P : List String) :
    mapperNames (handle_colname_collisions df m P).2.1 =
      (mapperNames m).map (markOne (collisionList m P)) := by
  by_cases h : collisionList m P = []
  · rw [handle_colname_collisions_of_nil df m P h, h]
    dsimp only
    exact ((List.map_congr_left fun a _ => rfl).trans (List.map_id _)).symm
  · rw [handle_colname_collisions_mapper_of_ne df m P h]
    unfold mapperNames
    dsimp only
    simp only [List.map_append, List.map_map]
    refine congrArg₂ (· ++ ·) (congrArg₂ (· ++ ·) ?_ ?_) ?_ <;>
    · refine List.map_congr_left fun a _ => ?_
      show (suffixAnn (collisionList m P) a).name =
        markOne (collisionList m P) a.name
      rw [suffixAnn_name]
      rfl

theorem cellAt_markHeader (hdr : List String) (rows : List (List Cell))
    (f : String → String) (o : String) (r : List Cell)
    (hinj : ∀ h ∈ hdr, (f h = f o ↔ h = o)) :
    Table.cellAt ⟨hdr.map f, rows⟩ r (f o) =
      Table.cellAt ⟨hdr, rows⟩ r o := by
  unfold Table.cellAt Table.colIdx
  dsimp only
  rw [listIdx?_map_of_inj f o hdr hinj]

theorem filter_eq_singleton_of_nodup (c : String) :
    ∀ hdr : List String, hdr.Nodup → c ∈ hdr →
      hdr.filter (fun h => h = c) = [c] := by
  intro hdr
  induction hdr with
  | nil => intro _ hc; cases hc
  | cons h t ih =>
    intro hnd hc
    rw [List.filter_cons]
    by_cases hh : h = c
    · rw [if_pos (by simpa using hh)]
      have hnotc : c ∉ t := hh ▸ (List.nodup_cons.mp hnd).1
      have hft : t.filter (fun h => h = c) = [] := by
        rw [List.filter_eq_nil_iff]
        intro a ha hac
        exact hnotc ((by simpa using hac : a = c) ▸ ha)
      rw [hft, hh]
    · rw [if_neg (by simpa using hh)]
      refine ih (List.nodup_cons.mp hnd).2 ?_
      rcases List.mem_cons.mp hc with h' | h'
      · exact absurd h'.symm hh
      · exact h'

theorem labelIdxs_nodup (c : String) (hdr : List String) (hnd : hdr.Nodup)
    (hc : c ∈ hdr) :
    ∃ i, labelIdxs c hdr = [i] ∧ listIdx? c hdr = some i := by
  have hlen : (labelIdxs c hdr).length = 1 := by
    rw [labelIdxs_length, filter_eq_singleton_of_nodup c hdr hnd hc]
    rfl
  obtain ⟨i, hi⟩ := List.length_eq_one.mp hlen
  exact ⟨i, hi, by rw [labelIdxs_head, hi]; rfl⟩

theorem flatMap_filter_nodup (hdr : List String) (hnd : hdr.Nodup) :
    ∀ keys : List String, (∀ k ∈ keys, k ∈ hdr) →
      keys.flatMap (fun k => hdr.filter (fun h => h = k)) = keys := by
  intro keys
  induction keys with
  | nil => intro _; rfl
  | cons k ks ih =>
    intro hpres
    rw [List.flatMap_cons,
      filter_eq_singleton_of_nodup k hdr hnd (hpres k (List.mem_cons_self k ks)),
      ih (fun d hd => hpres d (List.mem_cons_of_mem k hd))]
    rfl

theorem flatMap_rows_nodup (t : Table) (hnd : t.header.Nodup) (r : List Cell) :
    ∀ keys : List String, (∀ k ∈ keys, k ∈ t.header) →
      keys.flatMap (fun k =>
        (labelIdxs k t.header).map (fun i => r.getD i none)) =
      keys.map (t.cellAt r) := by
  intro keys
  induction keys with
  | nil => intro _; rfl
  | cons k ks ih =>
    intro hpres
    obtain ⟨i, hli, hfi⟩ :=
      labelIdxs_nodup k t.header hnd (hpres k (List.mem_cons_self k ks))
    rw [List.flatMap_cons, hli,
      ih (fun d hd => hpres d (List.mem_cons_of_mem k hd))]
    have hcell : t.cellAt r k = r.getD i none := by
      unfold Table.cellAt Table.colIdx
      rw [hfi]
    exact congrArg (fun x => x :: ks.map (t.cellAt r)) hcell.symm

/-- On a frame with unique column labels — the only regime pandas selection
behaves like plain label lookup in — `df[keys]` returns one column per key. -/
theorem selectE_nodup (t : Table) (keys : List String)
    (hnd : t.header.Nodup) (hpres : ∀ k ∈ keys, k ∈ t.header) :
    t.selectE keys =
      .ok { header := keys,
            rows := t.rows.map (fun r => keys.map (t.cellAt r)) } := by
  have hall : (keys.all (fun k => t.hasCol k)) = true := by
    rw [List.all_eq_true]
    intro k hk
    simpa [Table.hasCol] using hpres k hk
  unfold Table.selectE
  rw [if_pos hall]
  have h1 := flatMap_filter_nodup t.header hnd keys hpres
  have h2 : (t.rows.map (fun r => keys.flatMap (fun k =>
      (labelIdxs k t.header).map (fun i => r.getD i none)))) =
      t.rows.map (fun r => keys.map (t.cellAt r)) :=
    List.map_congr_left fun r _ => flatMap_rows_nodup t hnd r keys hpres
  rw [h1, h2]

/-- C10 (amended): provided no source column label and no schema name ends in
`"_non_primary"` (otherwise the collision rename can land an annotated column
on a pre-existing unannotated label, and the subset then reads the unannotated
column), the normalizer's output depends only on the columns named by the
schema's annotations: two frames with the same row count, both carrying every
annotated column and agreeing on its cells row by row, produce identical
results (frame, ledger and cache alike); and the frame handed to the rest of
the pipeline carries exactly the resolved schema names, so no unnamed source
column survives the subset. -/
theorem C10_schema_scope (o : Oracles) (m : Mapper) (admin : String)
    (dg : Table) (df₁ df₂ : Table)
    (hnd1 : df₁.header.Nodup)
    (hnd2 : df₂.header.Nodup)
    (hh1 : ∀ h ∈ df₁.header, strEndsWith h "_non_primary" = false)
    (hh2 : ∀ h ∈ df₂.header, strEndsWith h "_non_primary" = false)
    (hmn : ∀ n ∈ mapperNames m, strEndsWith n "_non_primary" = false)
    (hpres₁ : ∀ c ∈ mapperNames m, c ∈ df₁.header)
    (hpres₂ : ∀ c ∈ mapperNames m, c ∈ df₂.header)
    (hlen : df₁.rows.length = df₂.rows.length)
    (hagree : ∀ c ∈ mapperNames m, ∀ i < df₁.rows.length,
      df₁.cellAt (df₁.rows.getD i []) c = df₂.cellAt (df₂.rows.getD i []) c) :
    normalizer o df₁ m admin dg = normalizer o df₂ m admin dg ∧
    ∀ df', (handle_colname_collisions df₁ m COL_ORDER).1.selectE
        (mapperNames (handle_colname_collisions df₁ m COL_ORDER).2.1) =
          .ok df' →
      df'.header =
        mapperNames (handle_colname_collisions df₁ m COL_ORDER).2.1 := by
  have hclsfx : ∀ c ∈ collisionList m COL_ORDER,
      strEndsWith c "_non_primary" = false :=
    fun c hc => hmn c (collisionList_sub m COL_ORDER c hc)
  have hndm : ∀ df : Table, df.header.Nodup →
      (∀ h ∈ df.header, strEndsWith h "_non_primary" = false) →
      (df.header.map (markOne (collisionList m COL_ORDER))).Nodup := by
    intro df hnd hh
    refine List.Nodup.map_on ?_ hnd
    intro x hx y hy he
    exact (markOne_inj _ hclsfx x y (hh x hx) (hh y hy)).mp he
  have hsel : ∀ df : Table, df.header.Nodup →
      (∀ h ∈ df.header, strEndsWith h "_non_primary" = false) →
      (∀ c ∈ mapperNames m, c ∈ df.header) →
      Table.selectE
          ⟨df.header.map (markOne (collisionList m COL_ORDER)), df.rows⟩
          ((mapperNames m).map (markOne (collisionList m COL_ORDER))) =
        .ok ⟨(mapperNames m).map (markOne (collisionList m COL_ORDER)),
             df.rows.map (fun r =>
               (mapperNames m).map (fun c => df.cellAt r c))⟩ := by
    intro df hnd hh hpres
    have hpresT : ∀ k ∈ (mapperNames m).map
        (markOne (collisionList m COL_ORDER)),
        k ∈ df.header.map (markOne (collisionList m COL_ORDER)) := by
      intro k hk
      obtain ⟨c, hc, rfl⟩ := List.mem_map.mp hk
      exact List.mem_map.mpr ⟨c, hpres c hc, rfl⟩
    have h0 := selectE_nodup
      ⟨df.header.map (markOne (collisionList m COL_ORDER)), df.rows⟩
      ((mapperNames m).map (markOne (collisionList m COL_ORDER)))
      (hndm df hnd hh) hpresT
    rw [h0]
    have hrows2 : df.rows.map (fun r =>
        ((mapperNames m).map (markOne (collisionList m COL_ORDER))).map
          (Table.cellAt
            ⟨df.header.map (markOne (collisionList m COL_ORDER)), df.rows⟩
            r)) =
        df.rows.map (fun r =>
          (mapperNames m).map (fun c => df.cellAt r c)) := by
      refine List.map_congr_left fun r _ => ?_
      rw [List.map_map]
      refine List.map_congr_left fun c hc => ?_
      show Table.cellAt
          ⟨df.header.map (markOne (collisionList m COL_ORDER)), df.rows⟩ r
          (markOne (collisionList m COL_ORDER) c) = df.cellAt r c
      rw [cellAt_markHeader df.header df.rows _ c r
        (fun h hmem => markOne_inj _ hclsfx h c (hh h hmem) (hmn c hc))]
    dsimp only
    rw [hrows2]
  have hks₂ := mapperNames_hcc df₂ m COL_ORDER
  have hrest := handle_colname_collisions_rest df₁ df₂ m COL_ORDER
  have htab₁ : (handle_colname_collisions df₁ m COL_ORDER).1 =
      ⟨df₁.header.map (markOne (collisionList m COL_ORDER)), df₁.rows⟩ := by
    rw [handle_colname_collisions_table]
    exact congrArg (fun hd => Table.mk hd df₁.rows)
      (List.map_congr_left fun a ha =>
        markFold_eq (collisionList m COL_ORDER) hclsfx a (hh1 a ha))
  have htab₂ : (handle_colname_collisions df₂ m COL_ORDER).1 =
      ⟨df₂.header.map (markOne (collisionList m COL_ORDER)), df₂.rows⟩ := by
    rw [handle_colname_collisions_table]
    exact congrArg (fun hd => Table.mk hd df₂.rows)
      (List.map_congr_left fun a ha =>
        markFold_eq (collisionList m COL_ORDER) hclsfx a (hh2 a ha))
  have hrows : df₁.rows.map (fun r =>
      (mapperNames m).map (fun c => df₁.cellAt r c)) =
      df₂.rows.map (fun r =>
        (mapperNames m).map (fun c => df₂.cellAt r c)) := by
    refine List.ext_getElem (by simpa using hlen) ?_
    intro i h1 h2
    simp only [List.getElem_map]
    refine List.map_congr_left fun c hc => ?_
    have h1a : i < df₁.rows.length := by simpa using h1
    have h2a : i < df₂.rows.length := by simpa using h2
    have hag := hagree c hc i h1a
    rw [List.getD_eq_getElem df₁.rows [] h1a,
      List.getD_eq_getElem df₂.rows [] h2a] at hag
    exact hag
  constructor
  · unfold normalizer
    dsimp only
    rw [hrest, hks₂, htab₁, htab₂, hsel df₁ hnd1 hh1 hpres₁,
      hsel df₂ hnd2 hh2 hpres₂]
    dsimp only
    rw [hrows]
  · intro df' h
    rw [htab₁, mapperNames_hcc df₁ m COL_ORDER,
      hsel df₁ hnd1 hh1 hpres₁] at h
    injection h with h2
    rw [mapperNames_hcc df₁ m COL_ORDER, ← h2]

def mC10 : Mapper :=
  { geo := [], date := [],
    feature := [{ name := "f1" }, { name := "value", qualifies := ["f1"] }] }

def dfC10a : Table :=
  ⟨["value_non_primary", "value", "f1"],
   [[some (.int 111), some (.int 5), some (.int 7)]]⟩

def dfC10b : Table :=
  ⟨["value_non_primary", "value", "f1"],
   [[some (.int 222), some (.int 5), some (.int 7)]]⟩

def oC10 : Oracles :=
  { parse := fun _ _ => none, score := fun _ _ => 0,
    isoLookup := fun _ => none,
    geo := { adminCols := [], sjoin := fun _ _ => none },
    gadmNames := ⟨[], []⟩ }

/-- C10 counterexample: two ordinary frames (unique labels) that agree on
every schema-named column (`value` = 5 and `f1` = 7 in the single row) and
differ only in the unannotated column `value_non_primary`; the collision pass
renames the annotated `value` onto that pre-existing label, `df[mapper_keys]`
then selects both columns carrying the now-duplicated label, and the two
normalizer outputs differ — the output depended on a column no annotation
names. -/
theorem C10_schema_scope_counterexample :
    dfC10a.header.Nodup ∧ dfC10b.header.Nodup ∧
    (∀ c ∈ mapperNames mC10, c ∈ dfC10a.header ∧ c ∈ dfC10b.header) ∧
    dfC10a.rows.length = dfC10b.rows.length ∧
    (∀ c ∈ mapperNames mC10, ∀ i < dfC10a.rows.length,
      dfC10a.cellAt (dfC10a.rows.getD i []) c =
        dfC10b.cellAt (dfC10b.rows.getD i []) c) ∧
    ¬ normalizer oC10 dfC10a mC10 "admin2" ⟨[], []⟩ =
        normalizer oC10 dfC10b mC10 "admin2" ⟨[], []⟩ := by
  decide

def mC10w : Mapper := { geo := [], date := [], feature := [{ name := "a" }] }

def dfC10w1 : Table := ⟨["a", "x"], [[some (.int 1), some (.int 2)]]⟩

def dfC10w2 : Table := ⟨["a"], [[some (.int 1)]]⟩

theorem C10_schema_scope_witness :
    (normalizer oC10 dfC10w1 mC10w "admin2" ⟨[], []⟩ =
      normalizer oC10 dfC10w2 mC10w "admin2" ⟨[], []⟩) ∧
    ∀ df', (handle_colname_collisions dfC10w1 mC10w COL_ORDER).1.selectE
        (mapperNames (handle_colname_collisions dfC10w1 mC10w COL_ORDER).2.1) =
          .ok df' →
      df'.header =
        mapperNames (handle_colname_collisions dfC10w1 mC10w COL_ORDER).2.1 :=
  C10_schema_scope oC10 mC10w "admin2" ⟨[], []⟩ dfC10w1 dfC10w2
    (by decide) (by decide) (by decide) (by decide) (by decide) (by decide)
    (by decide) (by decide) (by decide)

end Mixmasta
